import Mathlib

/-!
Verification development for the merge-tactics autobattler
(`mergetactics/rules.py`, `mergetactics/cards.py`, `mergetactics/entities.py`,
`mergetactics/env.py`).

Python floats are embedded as rationals (`ℚ`); Python ints as `ℤ`.
The unit catalog at runtime is the JSON list of dict records loaded by
`rules.py` (`rules.CARD_CATALOG`); it is embedded as `Option (List Card)`
(`none` models an unbound catalog, i.e. `Unit._catalog is None`).
-/

namespace MergeTactics

attribute [local semireducible] Rat.sub Rat.add Rat.mul Rat.inv

/-! ## Numeric helpers for Python semantics -/

/-- Floor of a rational, computed directly from the normalised fraction. -/
def ratFloor (q : ℚ) : ℤ := Int.fdiv q.num (q.den : ℤ)

/-- Ceiling of a rational. -/
def ratCeil (q : ℚ) : ℤ := -(ratFloor (-q))

/-- Python `int(x)` on a float: truncation toward zero. -/
def pyInt (q : ℚ) : ℤ := if q < 0 then ratCeil q else ratFloor q

/-- Python `round(x)`: round half to even (banker's rounding). -/
def pyRound (q : ℚ) : ℤ :=
  let f := ratFloor q
  let frac := q - (f : ℚ)
  if frac < 1/2 then f
  else if 1/2 < frac then f + 1
  else if f % 2 = 0 then f else f + 1

/-! ## Constants from `rules.py` -/

def BOARD_ROWS : ℤ := 8
def BOARD_COLS : ℤ := 5
def MAX_ROUNDS : ℤ := 20
def START_ELIXIR : ℤ := 4
def CARD_COST_DEFAULT : ℤ := 3
def SELL_REFUND : ℤ := 2
def STORE_SLOTS : ℕ := 3
def BENCH_CAP : ℕ := 5
def USE_PROJECTILES : Bool := true
def DEFAULT_RANGE : ℤ := 1
def DEFAULT_HIT_SPEED : ℚ := 1
def DEFAULT_MOVE_SPEED : ℚ := 1
def DEFAULT_PROJECTILE_SPEED : ℚ := 6
def SUB_TICK_DT : ℚ := 1/10
def MAX_BATTLE_TIME : ℚ := 30
def END_ONLY_ON_WIPE : Bool := true
def ABSOLUTE_BATTLE_TIME_CAP : ℚ := 300

/-- Star multiplier table for hp, indexed by star 0..3 (star 1..3 valid). -/
def STAR_HP_MUL_DEFAULT : List ℚ := [1, 1, 8/5, 64/25]

/-- Star multiplier table for dps. -/
def STAR_DPS_MUL_DEFAULT : List ℚ := [1, 1, 7/5, 49/25]

/-- `rules.unit_cap_for_round`: starts at 2 in round 1, +1 per round, capped at 6. -/
def unit_cap_for_round (round_num : ℤ) : ℤ := min (2 + (round_num - 1)) 6

/-! ## Catalog records (`rules.py` scraper schema, JSON dicts)

A JSON field value as consumed by `rules._num`: a number, a `{"value": v}`
dict (whose `float(...)` conversion may fail), or some other value whose
`float(str(...))` parse may fail. An absent field is `Option.none` at the
record level. -/

inductive JVal where
  | num (q : ℚ)
  | valDict (q : Option ℚ)
  | other (parsed : Option ℚ)
deriving DecidableEq, Repr

/-- `rules._num`: parse a possibly-absent JSON field to an optional float. -/
def pyNum : Option JVal → Option ℚ
  | none => none
  | some (.num q) => some q
  | some (.valDict q) => q
  | some (.other p) => p

/-- One star bucket inside a `per_level` row: `{"hp":..,"damage":..,"dps":..}`. -/
structure StarBucket where
  hp : Option JVal
  damage : Option JVal
  dps : Option JVal
deriving DecidableEq, Repr

/-- One `per_level` row: `{level:int, stars:{"1":{...},...}}` (`level` may be
absent, in which case Python's `r.get("level", 999)` supplies 999). -/
structure LevelRow where
  level : Option ℤ
  stars : List (ℤ × StarBucket)
deriving DecidableEq, Repr

/-- A catalog card record (dict shape as loaded from the scraped JSON). The
`id` field participates in `Unit._resolve_spec`'s list search. -/
structure Card where
  id : Option ℤ
  hp : Option JVal
  damage : Option JVal
  dps : Option JVal
  hit_speed : Option JVal
  range : Option JVal
  move_speed : Option JVal
  projectile_speed : Option JVal
  elixir : Option JVal
  per_level : List LevelRow
deriving DecidableEq, Repr

/-- A record with every field absent (`{}` in `Unit.from_card`'s fallback). -/
def emptyCard : Card :=
  { id := none, hp := none, damage := none, dps := none, hit_speed := none,
    range := none, move_speed := none, projectile_speed := none,
    elixir := none, per_level := [] }

/-! ## Stat helpers from `rules.py` -/

/-- Stat selector for `_get_star_multiplier` (`"hp"` vs `"dps"`). -/
inductive StatName where
  | hp
  | dps
deriving DecidableEq, Repr

/-- `rules._get_star_multiplier`: clamp the star into the LUT and index it. -/
def get_star_multiplier (_card : Card) (stat : StatName) (star : ℤ) : ℚ :=
  let lut := match stat with
    | .hp => STAR_HP_MUL_DEFAULT
    | .dps => STAR_DPS_MUL_DEFAULT
  let star1 := if star < 1 then 1 else star
  let star2 := if (lut.length : ℤ) ≤ star1 then (lut.length : ℤ) - 1 else star1
  lut.getD star2.toNat 0

/-- `rules.hit_speed_for`. -/
def hit_speed_for (card : Card) : ℚ :=
  match pyNum card.hit_speed with
  | some hs => hs
  | none => DEFAULT_HIT_SPEED

/-- Sort key of a `per_level` row: `r.get("level", 999)`. -/
def rowLevel (r : LevelRow) : ℤ :=
  match r.level with
  | some l => l
  | none => 999

/-- Python `min(per_level, key=...)`: the first row with minimal level. -/
def minLevelRow : List LevelRow → Option LevelRow
  | [] => none
  | r :: rs => some (rs.foldl (fun best x => if rowLevel x < rowLevel best then x else best) r)

/-- Lookup of `stars.get(str(star))` inside a level row. -/
def lookupStar : List (ℤ × StarBucket) → ℤ → Option StarBucket
  | [], _ => none
  | (k, b) :: rest, star => if k = star then some b else lookupStar rest star

/-- `rules.base_stats_for`: per-level stats when available, otherwise base
hp/dps (or damage/hit-speed) scaled by the star multiplier tables. -/
def base_stats_for (card : Card) (star : ℤ) : ℚ × ℚ :=
  let fromLevels : Option (ℚ × ℚ) :=
    match minLevelRow card.per_level with
    | none => none
    | some lvl_row =>
      match lookupStar lvl_row.stars star with
      | none => none
      | some bucket =>
        let hp := pyNum bucket.hp
        let dps := pyNum bucket.dps
        match hp, dps with
        | some h, some d => some (h, d)
        | _, _ =>
          let dmg := pyNum bucket.damage
          let hs := hit_speed_for card
          match hp, dmg with
          | some h, some m => if hs ≠ 0 then some (h, m / hs) else none
          | _, _ => none
  match fromLevels with
  | some p => p
  | none =>
    let base_hp := pyNum card.hp
    let base_dps : Option ℚ :=
      match pyNum card.dps with
      | some d => some d
      | none =>
        match pyNum card.damage with
        | some m =>
          let hs := hit_speed_for card
          if hs ≠ 0 then some (m / hs) else none
        | none => none
    let bh := match base_hp with | some h => h | none => 1
    let bd := match base_dps with | some d => d | none => 1
    (bh * get_star_multiplier card .hp star, bd * get_star_multiplier card .dps star)

/-- `rules.range_for`: `int(...)` of the range field, or the default. -/
def range_for (card : Card) : ℤ :=
  match pyNum card.range with
  | some r => pyInt r
  | none => DEFAULT_RANGE

/-- `rules.move_speed_for`. -/
def move_speed_for (card : Card) : ℚ :=
  match pyNum card.move_speed with
  | some mv => mv
  | none => DEFAULT_MOVE_SPEED

/-- `rules.projectile_speed_for`: range ≤ 1 is melee regardless of any
projectile-speed field; otherwise a missing or non-positive field falls back
to `DEFAULT_PROJECTILE_SPEED`. -/
def projectile_speed_for (card : Card) : ℚ :=
  let r := range_for card
  if r ≤ 1 then 0
  else
    match pyNum card.projectile_speed with
    | none => DEFAULT_PROJECTILE_SPEED
    | some ps => if ps ≤ 0 then DEFAULT_PROJECTILE_SPEED else ps

/-- `rules.elixir_cost_for`. -/
def elixir_cost_for (card : Card) : ℤ :=
  match pyNum card.elixir with
  | some c => pyRound c
  | none => CARD_COST_DEFAULT

/-! ## Units (`entities.py`)

The Python `Unit` dataclass plus the two dynamic attributes (`move_target`,
`_reserved`) that `BattleEngine.step` sets via `setattr`. -/

structure Unit where
  card_id : ℤ
  star : ℤ
  pos : ℚ × ℚ
  hp : ℚ
  dps : ℚ
  cooldown : ℚ
  move_target : Option (ℤ × ℤ)
  reserved : Option (ℤ × ℤ)
deriving DecidableEq, Repr

/-- The bound catalog (`Unit._catalog`): absent, or the JSON list of dicts. -/
abbrev Catalog := Option (List Card)

/-- List search of `Unit._resolve_spec` for the list-of-dicts catalog shape:
match on the record's `id` field, else fall back to the list index. -/
def resolveSpecList : List Card → ℕ → ℤ → Option Card
  | [], _, _ => none
  | x :: rest, idx, cid =>
    if x.id = some cid then some x
    else if (idx : ℤ) = cid then some x
    else resolveSpecList rest (idx + 1) cid

/-- `Unit._resolve_spec` over the embedded catalog. -/
def resolveSpec (cat : Catalog) (cid : ℤ) : Option Card :=
  match cat with
  | none => none
  | some l => resolveSpecList l 0 cid

/-- `Unit.is_alive`: `hp > 0.0`. -/
def Unit.is_alive (u : Unit) : Bool := decide (0 < u.hp)

/-- `Unit.range()`: resolved record's `range_for`, default 1 when missing. -/
def Unit.range (cat : Catalog) (u : Unit) : ℤ :=
  match resolveSpec cat u.card_id with
  | some c => range_for c
  | none => 1

/-- `Unit.hit_speed()`. -/
def Unit.hit_speed (cat : Catalog) (u : Unit) : ℚ :=
  match resolveSpec cat u.card_id with
  | some c => hit_speed_for c
  | none => 1

/-- `Unit.projectile_speed()`: with a dict record the method returns
`rules.projectile_speed_for` directly; with no record it returns 0. -/
def Unit.projectile_speed (cat : Catalog) (u : Unit) : ℚ :=
  match resolveSpec cat u.card_id with
  | some c => projectile_speed_for c
  | none => 0

/-- `Unit.move_speed()`. -/
def Unit.move_speed (cat : Catalog) (u : Unit) : ℚ :=
  match resolveSpec cat u.card_id with
  | some c => move_speed_for c
  | none => 1

/-- `Unit.from_card`: for the JSON-dict catalogs modelled here the
CardSpec-object branch of the method never fires (`isinstance(spec, dict)`
holds whenever a record resolves), so stats come from
`rules.base_stats_for` on the record (or on `{}` when missing), clamped to
hp ≥ 1.0 and dps ≥ 0.1, with cooldown 0. -/
def Unit.from_card (cat : Catalog) (card_id star : ℤ) (pos : ℤ × ℤ) : Unit :=
  let data := match resolveSpec cat card_id with
    | some c => c
    | none => emptyCard
  let stats := base_stats_for data star
  { card_id := card_id
    star := star
    pos := ((pos.1 : ℚ), (pos.2 : ℚ))
    hp := max 1 stats.1
    dps := max (1/10) stats.2
    cooldown := 0
    move_target := none
    reserved := none }

/-! ## Generic list helpers used by the embedding -/

/-- Replace the element at an index by applying a function (out of range:
unchanged); models an in-place mutation of one Python list element. -/
def updateAt {α : Type} : List α → ℕ → (α → α) → List α
  | [], _, _ => []
  | x :: xs, 0, f => f x :: xs
  | x :: xs, n + 1, f => x :: updateAt xs n f

/-- Set the element at an index (out of range: unchanged). -/
def setAt {α : Type} (l : List α) (n : ℕ) (a : α) : List α := updateAt l n (fun _ => a)

/-- Strict lexicographic comparison of 4-tuples of integers (Python tuple `<`). -/
def lex4Lt (a b : ℤ × ℤ × ℤ × ℤ) : Bool :=
  decide (a.1 < b.1 ∨ (a.1 = b.1 ∧ (a.2.1 < b.2.1 ∨ (a.2.1 = b.2.1 ∧
    (a.2.2.1 < b.2.2.1 ∨ (a.2.2.1 = b.2.2.1 ∧ a.2.2.2 < b.2.2.2))))))

/-- Non-strict lexicographic comparison of 5-tuples of integers. -/
def lex5Le (a b : ℤ × ℤ × ℤ × ℤ × ℤ) : Bool :=
  decide (a.1 < b.1 ∨ (a.1 = b.1 ∧ (a.2.1 < b.2.1 ∨ (a.2.1 = b.2.1 ∧
    (a.2.2.1 < b.2.2.1 ∨ (a.2.2.1 = b.2.2.1 ∧
      (a.2.2.2.1 < b.2.2.2.1 ∨ (a.2.2.2.1 = b.2.2.2.1 ∧ a.2.2.2.2 ≤ b.2.2.2.2))))))))

/-- Insert into a sorted list, keeping earlier-inserted equals first. -/
def insSorted {α : Type} (le : α → α → Bool) (x : α) : List α → List α
  | [] => [x]
  | y :: ys => if le x y then x :: y :: ys else y :: insSorted le x ys

/-- Stable sort by a boolean `≤` predicate (models Python's stable `sort`). -/
def sortStable {α : Type} (le : α → α → Bool) (l : List α) : List α :=
  l.foldr (insSorted le) []

/-! ## Battle engine (`env.py`: `Projectile`, `BattleEngine`) -/

structure Projectile where
  owner : ℤ
  dmg : ℚ
  r : ℚ
  c : ℚ
  target_idx : ℤ
  remaining : ℚ
deriving DecidableEq, Repr

structure BattleEngine where
  units : List (ℤ × Unit)
  projectiles : List Projectile
deriving DecidableEq, Repr

/-- Odd-r offset coordinates to cube coordinates `(x, y, z)`. -/
def rc_to_cube (r c : ℤ) : ℚ × ℚ × ℚ :=
  let x : ℚ := (c : ℚ) - ((r % 2 : ℤ) : ℚ) / 2
  let z : ℚ := (r : ℚ)
  (x, -x - z, z)

/-- Hex distance on the odd-r lattice (`int((|dx|+|dy|+|dz|)/2)`). -/
def hex_dist (r1 c1 r2 c2 : ℤ) : ℤ :=
  let a := rc_to_cube r1 c1
  let b := rc_to_cube r2 c2
  pyInt ((|a.1 - b.1| + |a.2.1 - b.2.1| + |a.2.2 - b.2.2|) / 2)

/-- Odd-r offset neighbours clamped to the board. -/
def hex_neighbors (r c : ℤ) : List (ℤ × ℤ) :=
  let candidates :=
    if r % 2 = 1 then
      [(r-1, c), (r-1, c+1), (r, c-1), (r, c+1), (r+1, c), (r+1, c+1)]
    else
      [(r-1, c-1), (r-1, c), (r, c-1), (r, c+1), (r+1, c-1), (r+1, c)]
  candidates.filter
    (fun p => decide (0 ≤ p.1 ∧ p.1 < BOARD_ROWS ∧ 0 ≤ p.2 ∧ p.2 < BOARD_COLS))

/-- Hex adjacency on the odd-row-offset lattice: membership in the
neighbour set (used to state the spec's adjacency claims). -/
def hex_adjacent (a b : ℤ × ℤ) : Bool := decide (b ∈ hex_neighbors a.1 a.2)

def CENTER_EPS : ℚ := 1/10000

/-- A unit is centered when both coordinates are within `CENTER_EPS` of the
rounded cell. -/
def is_center (u : Unit) : Bool :=
  decide (|u.pos.1 - (pyRound u.pos.1 : ℚ)| < CENTER_EPS ∧
          |u.pos.2 - (pyRound u.pos.2 : ℚ)| < CENTER_EPS)

/-- Rounded cell of a unit (`tuple(map(round, u.pos))`). -/
def cellOf (u : Unit) : ℤ × ℤ := (pyRound u.pos.1, pyRound u.pos.2)

/-- `BattleEngine.nearest_enemy`: nearest alive enemy by hex distance with
deterministic tie-break key `(d, target_col, target_row, index)`. -/
def nearest_enemy (units : List (ℤ × Unit)) (idx : ℕ) : Option ℕ :=
  match units.get? idx with
  | none => none
  | some (owner_i, ui) =>
    let ur := pyRound ui.pos.1
    let uc := pyRound ui.pos.2
    let best := units.enum.foldl
      (fun best jp =>
        if jp.2.1 = owner_i ∨ jp.2.2.is_alive = false then best
        else
          let tr := pyRound jp.2.2.pos.1
          let tc := pyRound jp.2.2.pos.2
          let key : ℤ × ℤ × ℤ × ℤ := (hex_dist ur uc tr tc, tc, tr, (jp.1 : ℤ))
          match best with
          | none => some (jp.1, key)
          | some bk => if lex4Lt key bk.2 = true then some (jp.1, key) else best)
      none
    best.map Prod.fst

/-- `advance_move` helper inside `BattleEngine.step`: slide toward the move
target at move speed, capped at 0.45 per frame; returns the updated unit and
whether it arrived. -/
def advance_move (cat : Catalog) (u : Unit) (dt : ℚ) : Unit × Bool :=
  match u.move_target with
  | none => (u, false)
  | some tgt =>
    let trf : ℚ := (tgt.1 : ℚ)
    let tcf : ℚ := (tgt.2 : ℚ)
    let sr := u.pos.1
    let sc := u.pos.2
    let dr := trf - sr
    let dc := tcf - sc
    let spd := u.move_speed cat
    let step := min (spd * dt) (45/100)
    let L1 := |dr| + |dc|
    if L1 < CENTER_EPS then
      ({ u with pos := (trf, tcf), move_target := none }, true)
    else
      let ratio := min 1 (step / max L1 (1/1000000))
      let pos2 := (sr + dr * ratio, sc + dc * ratio)
      if |pos2.1 - trf| + |pos2.2 - tcf| < CENTER_EPS then
        ({ u with pos := (trf, tcf), move_target := none }, true)
      else
        ({ u with pos := pos2 }, false)

/-- Subtract projectile damage from a unit's hp. -/
def dmgUnit (u : Unit) (d : ℚ) : Unit := { u with hp := u.hp - d }

/-- One pass of the projectile update loop: decrement `remaining` by `dt`;
on arrival apply damage only when the target index is in bounds and the
start-of-pass alive snapshot marks the target alive, and drop the
projectile; otherwise keep it. -/
def projPassGo (mask : List Bool) (dt : ℚ) :
    List (ℤ × Unit) → List Projectile → List (ℤ × Unit) × List Projectile
  | units, [] => (units, [])
  | units, p :: rest =>
    let rem := p.remaining - dt
    if rem ≤ 0 then
      let units2 :=
        if 0 ≤ p.target_idx ∧ p.target_idx < (units.length : ℤ) ∧
            mask.getD p.target_idx.toNat false = true then
          updateAt units p.target_idx.toNat (fun ou => (ou.1, dmgUnit ou.2 p.dmg))
        else units
      projPassGo mask dt units2 rest
    else
      let r := projPassGo mask dt units rest
      (r.1, { p with remaining := rem } :: r.2)

/-- Projectile pass with the alive snapshot taken at pass start
(`alive_mask = [u.is_alive() for _, u in self.units]`). -/
def projPass (dt : ℚ) (units : List (ℤ × Unit)) (ps : List Projectile) :
    List (ℤ × Unit) × List Projectile :=
  projPassGo (units.map (fun ou => ou.2.is_alive)) dt units ps

/-- Per-owner directional bias: side 0 advances by increasing row, side 1
by decreasing row. -/
def owner_bias (owner : ℤ) : ℤ × ℤ := if owner = 0 then (1, 0) else (-1, 0)

/-- Movement planning for one unit: returns its ordered candidate list
(reducing neighbours first, then lateral ones, each sorted by the
deterministic key); the unit's intent is the head. An empty list models a
unit that plans no move this tick. -/
def planUnit (cat : Catalog) (units : List (ℤ × Unit)) (occupied : List (ℤ × ℤ))
    (i : ℕ) (owner : ℤ) (ui : Unit) : List (ℤ × ℤ) :=
  let ur := pyRound ui.pos.1
  let uc := pyRound ui.pos.2
  if ui.is_alive = false ∨ is_center ui = false ∨ ui.move_target.isSome ∨ 0 < ui.cooldown then
    []
  else
    match nearest_enemy units i with
    | none => []
    | some t_idx =>
      match units.get? t_idx with
      | none => []
      | some tp =>
        let tj := tp.2
        let tr := pyRound tj.pos.1
        let tc := pyRound tj.pos.2
        let d0 := hex_dist ur uc tr tc
        if d0 ≤ ui.range cat then []
        else
          let rb := (owner_bias owner).1
          let cb := (owner_bias owner).2
          let biasKey := fun (rc : ℤ × ℤ) => (rb * (rc.1 - ur), cb * (rc.2 - uc))
          let neigh := (hex_neighbors ur uc).filter (fun n => decide (n ∉ occupied))
          let reducing := neigh.filter (fun n => decide (hex_dist n.1 n.2 tr tc < d0))
          let lateral := neigh.filter (fun n => decide (hex_dist n.1 n.2 tr tc = d0))
          let redKey := fun (rc : ℤ × ℤ) =>
            (hex_dist rc.1 rc.2 tr tc, (biasKey rc).1, (biasKey rc).2, rc.2, rc.1)
          let latKey := fun (rc : ℤ × ℤ) =>
            (|rc.1 - tr| + |rc.2 - tc|, (biasKey rc).1, (biasKey rc).2, rc.2, rc.1)
          sortStable (fun a b => lex5Le (redKey a) (redKey b)) reducing ++
            sortStable (fun a b => lex5Le (latKey a) (latKey b)) lateral

/-- Ordered candidate lists for every unit index. -/
def planAll (cat : Catalog) (units : List (ℤ × Unit)) (occupied : List (ℤ × ℤ)) :
    List (List (ℤ × ℤ)) :=
  units.enum.map (fun jp => planUnit cat units occupied jp.1 jp.2.1 jp.2.2)

/-- Head-on swap detection: unit `i` is blocked when some other unit `j`
intends to move into `i`'s cell while `i` intends to move into `j`'s. -/
def isBlocked (sources : List (ℤ × ℤ)) (intents : List (Option (ℤ × ℤ))) (i : ℕ) : Bool :=
  match intents.getD i none, sources.get? i with
  | some tgt, some src =>
    (List.range intents.length).any (fun j =>
      decide (j ≠ i) &&
        match intents.getD j none, sources.get? j with
        | some tgtj, some srcj => decide (tgt = srcj ∧ tgtj = src)
        | _, _ => false)
  | _, _ => false

/-- The next candidate after the current one that is not already taken
(`opts.index(cur) + 1` onward). -/
def nextOption (opts : List (ℤ × ℤ)) (cur : ℤ × ℤ) (taken : List (ℤ × ℤ)) :
    Option (ℤ × ℤ) :=
  if cur ∈ opts then
    (opts.drop (opts.indexOf cur + 1)).find? (fun x => decide (x ∉ taken))
  else none

/-- Append a candidate to the per-cell candidate table, preserving
first-appearance cell order (Python dict `setdefault(...).append`). -/
def appendCand : List ((ℤ × ℤ) × List ℕ) → (ℤ × ℤ) → ℕ → List ((ℤ × ℤ) × List ℕ)
  | [], cell, i => [(cell, [i])]
  | (c, l) :: rest, cell, i =>
    if c = cell then (c, l ++ [i]) :: rest else (c, l) :: appendCand rest cell i

/-- Remove an entry from an index-keyed association list (`dict.pop`). -/
def removeKey {β : Type} (l : List (ℕ × β)) (k : ℕ) : List (ℕ × β) :=
  l.filter (fun kv => decide (kv.1 ≠ k))

/-- Update an entry of an index-keyed association list in place. -/
def updateKey {β : Type} : List (ℕ × β) → ℕ → β → List (ℕ × β)
  | [], _, _ => []
  | (k0, v0) :: rest, k, v =>
    if k0 = k then (k0, v) :: rest else (k0, v0) :: updateKey rest k v

/-- Allocator state: pending intents (insertion ordered), taken cells,
decided winners, and the mutable intents table. -/
structure AllocState where
  pending : List (ℕ × (ℤ × ℤ))
  taken : List (ℤ × ℤ)
  winners : List (ℕ × (ℤ × ℤ))
  intents : List (Option (ℤ × ℤ))
deriving Repr

/-- Phase A of one allocator iteration: entries whose target is already
taken advance to their next free option (or drop out); the rest become
candidates grouped per destination cell. -/
def allocPhaseA (options : List (List (ℤ × ℤ))) (taken : List (ℤ × ℤ)) :
    List (ℕ × (ℤ × ℤ)) → List (Option (ℤ × ℤ)) →
    List (ℕ × (ℤ × ℤ)) → List ((ℤ × ℤ) × List ℕ) →
    List (ℕ × (ℤ × ℤ)) × List (Option (ℤ × ℤ)) × List ((ℤ × ℤ) × List ℕ)
  | [], intents, accP, accC => (accP, intents, accC)
  | (i, tgt) :: rest, intents, accP, accC =>
    if tgt ∈ taken then
      match nextOption (options.getD i []) tgt taken with
      | some nxt =>
        allocPhaseA options taken rest (setAt intents i (some nxt)) (accP ++ [(i, nxt)]) accC
      | none =>
        allocPhaseA options taken rest intents accP accC
    else
      allocPhaseA options taken rest intents (accP ++ [(i, tgt)]) (appendCand accC tgt i)

/-- Deterministic contention key `(owner, source_row, source_col, index)`. -/
def cand_key (units : List (ℤ × Unit)) (sources : List (ℤ × ℤ)) (k : ℕ) :
    ℤ × ℤ × ℤ × ℤ :=
  let owner_k := match units.get? k with
    | some ou => ou.1
    | none => 0
  let src := sources.getD k (0, 0)
  (owner_k, src.1, src.2, (k : ℤ))

/-- Losers of a contested cell try their next free option; those without
one drop out of `pending`. -/
def processLosers (options : List (List (ℤ × ℤ))) (taken : List (ℤ × ℤ)) :
    List ℕ → List (ℕ × (ℤ × ℤ)) → List (Option (ℤ × ℤ)) →
    List (ℕ × (ℤ × ℤ)) × List (Option (ℤ × ℤ))
  | [], pending, intents => (pending, intents)
  | k :: ks, pending, intents =>
    match intents.getD k none with
    | some cur =>
      match nextOption (options.getD k []) cur taken with
      | some nxt =>
        processLosers options taken ks (updateKey pending k nxt) (setAt intents k (some nxt))
      | none => processLosers options taken ks (removeKey pending k) intents
    | none => processLosers options taken ks (removeKey pending k) intents

/-- Phase B of one allocator iteration: award each contested cell to the
candidate with the least `cand_key`; losers retry. The boolean records
whether any winner was decided. -/
def allocPhaseB (units : List (ℤ × Unit)) (sources : List (ℤ × ℤ))
    (options : List (List (ℤ × ℤ))) :
    List ((ℤ × ℤ) × List ℕ) → AllocState → Bool → AllocState × Bool
  | [], st, decided => (st, decided)
  | (cell, cands) :: rest, st, decided =>
    match cands with
    | [] => allocPhaseB units sources options rest st decided
    | [i] =>
      let st2 : AllocState :=
        { pending := removeKey st.pending i
          taken := st.taken ++ [cell]
          winners := st.winners ++ [(i, cell)]
          intents := st.intents }
      allocPhaseB units sources options rest st2 true
    | _ :: _ :: _ =>
      let sorted := sortStable
        (fun a b => lex4Lt (cand_key units sources a) (cand_key units sources b) ||
          decide (cand_key units sources a = cand_key units sources b)) cands
      match sorted with
      | [] => allocPhaseB units sources options rest st decided
      | i_win :: losers =>
        let taken2 := st.taken ++ [cell]
        let pl := processLosers options taken2 losers (removeKey st.pending i_win) st.intents
        let st2 : AllocState :=
          { pending := pl.1
            taken := taken2
            winners := st.winners ++ [(i_win, cell)]
            intents := pl.2 }
        allocPhaseB units sources options rest st2 true

/-- The allocator `while pending:` loop, fuelled (each productive iteration
decides at least one winner, so `pending.length + 1` fuel suffices). -/
def allocLoop (units : List (ℤ × Unit)) (sources : List (ℤ × ℤ))
    (options : List (List (ℤ × ℤ))) : ℕ → AllocState → AllocState
  | 0, st => st
  | fuel + 1, st =>
    if st.pending = [] then st
    else
      let a := allocPhaseA options st.taken st.pending st.intents [] []
      let st1 : AllocState :=
        { pending := a.1, taken := st.taken, winners := st.winners, intents := a.2.1 }
      match a.2.2 with
      | [] => st1
      | cells =>
        let b := allocPhaseB units sources options cells st1 false
        if b.2 = true then allocLoop units sources options fuel b.1 else b.1

/-- One iteration of the "perform moves and cooldowns" loop for unit `i`:
tick the cooldown, keep reservations, advance in-flight motion, stall
blocked units with a 0.18s reaction delay, or start the planned move when
its cell is still free this frame. -/
def performStep (cat : Catalog) (dt : ℚ) (blockedL : List ℕ)
    (intents : List (Option (ℤ × ℤ)))
    (st : List (ℤ × Unit) × List (ℤ × ℤ)) (i : ℕ) :
    List (ℤ × Unit) × List (ℤ × ℤ) :=
  match st.1.get? i with
  | none => st
  | some (owner, ui0) =>
    let ui1 := if 0 < ui0.cooldown then
        { ui0 with cooldown := max 0 (ui0.cooldown - dt) }
      else ui0
    let frame1 := st.2 ++ (match ui1.reserved with
      | some rc => [rc]
      | none => [])
    if ui1.move_target.isSome then
      let am := advance_move cat ui1 dt
      let u3 := if am.2 = true then { am.1 with reserved := none } else am.1
      let frame2 := if am.2 = true then frame1 ++ [cellOf am.1] else frame1
      (updateAt st.1 i (fun _ => (owner, u3)), frame2)
    else if ui1.is_alive = false ∨ is_center ui1 = false then
      (updateAt st.1 i (fun _ => (owner, ui1)), frame1)
    else if i ∈ blockedL then
      (updateAt st.1 i (fun _ => (owner, { ui1 with cooldown := max ui1.cooldown (18/100) })), frame1)
    else
      match intents.getD i none with
      | some tgt =>
        if tgt ∈ frame1 then (updateAt st.1 i (fun _ => (owner, ui1)), frame1)
        else
          (updateAt st.1 i
            (fun _ => (owner, { ui1 with move_target := some tgt, reserved := some tgt })),
           frame1 ++ [tgt])
      | none => (updateAt st.1 i (fun _ => (owner, ui1)), frame1)

/-- The full "perform moves" sweep over all unit indices, threading the
per-frame occupancy set (which starts as a copy of `occupied`). -/
def performMoves (cat : Catalog) (dt : ℚ) (blockedL : List ℕ)
    (intents : List (Option (ℤ × ℤ))) (occupied : List (ℤ × ℤ))
    (units : List (ℤ × Unit)) : List (ℤ × Unit) × List (ℤ × ℤ) :=
  (List.range units.length).foldl (performStep cat dt blockedL intents) (units, occupied)

/-- One iteration of the attack loop for unit `i`: a centered, idle, alive
unit attacks its nearest enemy when in range, either spawning a projectile
(travel time `hex_distance / projectile_speed`) or applying instant damage,
then resets its cooldown to its hit speed. -/
def attackStep (cat : Catalog) (dt : ℚ)
    (st : List (ℤ × Unit) × List Projectile) (i : ℕ) :
    List (ℤ × Unit) × List Projectile :=
  match st.1.get? i with
  | none => st
  | some (owner, ui) =>
    if ui.is_alive = false ∨ 0 < ui.cooldown then st
    else if is_center ui = false ∨ ui.move_target.isSome then st
    else
      match nearest_enemy st.1 i with
      | none => st
      | some t =>
        match st.1.get? t with
        | none => st
        | some tp =>
          let tj := tp.2
          let ur := pyRound ui.pos.1
          let uc := pyRound ui.pos.2
          let tr := pyRound tj.pos.1
          let tc := pyRound tj.pos.2
          if hex_dist ur uc tr tc ≤ ui.range cat then
            let dmg := ui.dps * dt
            let ps := ui.projectile_speed cat
            let st2 : List (ℤ × Unit) × List Projectile :=
              if USE_PROJECTILES = true ∧ 0 < ps then
                (st.1, st.2 ++ [{ owner := owner, dmg := dmg, r := ui.pos.1, c := ui.pos.2,
                                  target_idx := (t : ℤ),
                                  remaining := max 0 ((hex_dist ur uc tr tc : ℚ) / ps) }])
              else
                (updateAt st.1 t (fun ou => (ou.1, dmgUnit ou.2 dmg)), st.2)
            (updateAt st2.1 i (fun ou => (ou.1, { ou.2 with cooldown := ui.hit_speed cat })), st2.2)
          else st

/-- The attack sweep over all unit indices. -/
def attackPhase (cat : Catalog) (dt : ℚ) (units : List (ℤ × Unit))
    (projs : List Projectile) : List (ℤ × Unit) × List Projectile :=
  (List.range units.length).foldl (attackStep cat dt) (units, projs)

/-- The movement stage of `BattleEngine.step`: occupancy snapshot, per-unit
planning, swap detection, the iterative contention allocator, and the
move/cooldown sweep. Returns the updated roster. -/
def moveStage (cat : Catalog) (dt : ℚ) (units1 : List (ℤ × Unit)) : List (ℤ × Unit) :=
  let occupied := units1.map (fun ou => cellOf ou.2) ++
    units1.filterMap (fun ou => ou.2.move_target)
  let options := planAll cat units1 occupied
  let sources := units1.map (fun ou => cellOf ou.2)
  let intents0 := options.map (fun opts => opts.head?)
  let blockedL := (List.range units1.length).filter (fun i => isBlocked sources intents0 i)
  let pending0 := intents0.enum.filterMap (fun it =>
    match it.2 with
    | some tgt => if it.1 ∈ blockedL then none else some (it.1, tgt)
    | none => none)
  let st0 : AllocState :=
    { pending := pending0, taken := occupied, winners := [], intents := intents0 }
  let stF := allocLoop units1 sources options (pending0.length + 1) st0
  (performMoves cat dt blockedL stF.intents occupied units1).1

/-- `BattleEngine.step(dt)`: projectile pass, movement planning with swap
detection and iterative contention resolution, move/cooldown sweep, attack
sweep, and a second projectile pass. Dead units persist and block cells. -/
def BattleEngine.step (cat : Catalog) (e : BattleEngine) (dt : ℚ) : BattleEngine :=
  let pp1 := projPass dt e.units e.projectiles
  let units2 := moveStage cat dt pp1.1
  let ap := attackPhase cat dt units2 pp1.2
  let pp2 := projPass dt ap.1 ap.2
  { units := pp2.1, projectiles := pp2.2 }

/-- `BattleEngine.alive_counts`: alive units per side. -/
def BattleEngine.alive_counts (e : BattleEngine) : ℕ × ℕ :=
  (e.units.countP (fun ou => decide (ou.1 = 0) && ou.2.is_alive),
   e.units.countP (fun ou => decide (ou.1 = 1) && ou.2.is_alive))

/-! ## Round orchestrator (`env.py`: `PlayerState`, `MTEnv`)

Boards are Python dicts from cell to unit; they are embedded as
insertion-ordered association lists with unique keys (uniqueness is stated
as a hypothesis where a theorem needs it). The numpy generator behind
`_rand_offer` is abstracted as an oracle stream of shop offers carried in
the state (`rng`), consumed head first. -/

/-- First-match lookup in an insertion-ordered dict. -/
def dlookup {β : Type} : List ((ℤ × ℤ) × β) → (ℤ × ℤ) → Option β
  | [], _ => none
  | (k, v) :: rest, key => if k = key then some v else dlookup rest key

/-- Dict assignment: overwrite in place, else append (Python dict order). -/
def dinsert {β : Type} : List ((ℤ × ℤ) × β) → (ℤ × ℤ) → β → List ((ℤ × ℤ) × β)
  | [], key, v => [(key, v)]
  | (k, v0) :: rest, key, v =>
    if k = key then (k, v) :: rest else (k, v0) :: dinsert rest key v

/-- Dict deletion (`del d[k]`; keys are unique in a Python dict). -/
def dremove {β : Type} (d : List ((ℤ × ℤ) × β)) (key : ℤ × ℤ) : List ((ℤ × ℤ) × β) :=
  d.filter (fun kv => decide (kv.1 ≠ key))

/-- Insertion-ordered key list of a dict. -/
def dkeys {β : Type} (d : List ((ℤ × ℤ) × β)) : List (ℤ × ℤ) := d.map Prod.fst

/-- All index pairs `i < j` of a list, in Python's nested-loop order. -/
def pairsOf {α : Type} : List α → List (α × α)
  | [] => []
  | x :: xs => xs.map (fun y => (x, y)) ++ pairsOf xs

/-- Actions (`("BUY_PLACE", (slot, col))` etc.); `OTHER` stands for any
unrecognised action kind, which falls through every branch of `step`. -/
inductive Action where
  | BUY_PLACE (si col : ℤ)
  | PLACE_FROM_BENCH (bi col : ℤ)
  | MERGE (posA posB : ℤ × ℤ)
  | SELL (pos : ℤ × ℤ)
  | END
  | OTHER
deriving DecidableEq, Repr

/-- `PlayerState`. -/
structure PlayerState where
  elixir : ℤ
  actions_left : ℤ
  shop : List (Option ℤ)
  bench : List (ℤ × ℤ)
  units : List ((ℤ × ℤ) × Unit)
  base_hp : ℤ
deriving DecidableEq, Repr

/-- `MTEnv` runtime state (`round`, `turn`, players, phase flags), plus the
shop-offer oracle stream standing in for the numpy generator. -/
structure MTEnv where
  round : ℤ
  turn : ℤ
  p0 : PlayerState
  p1 : PlayerState
  in_battle : Bool
  done : Bool
  rng : List ℤ
deriving DecidableEq, Repr

/-- `self.p0 if who == 0 else self.p1`. -/
def playerOf (s : MTEnv) (who : ℤ) : PlayerState := if who = 0 then s.p0 else s.p1

/-- Write back the selected player's state. -/
def setPlayer (s : MTEnv) (who : ℤ) (pl : PlayerState) : MTEnv :=
  if who = 0 then { s with p0 := pl } else { s with p1 := pl }

/-- `env._cost_of`: with the repo's list-of-dicts catalog (or no catalog)
`catalog.get(id)` raises (lists have no `.get`), the exception is swallowed
and the fallback price is returned, so every card costs
`CARD_COST_DEFAULT`. -/
def cost_of (_cat : Catalog) (_id : ℤ) : ℤ := CARD_COST_DEFAULT

/-- Back row per side. -/
def back_row (who : ℤ) : ℤ := if who = 0 then 0 else BOARD_ROWS - 1

/-- `MTEnv._board_count`. -/
def board_count (s : MTEnv) (who : ℤ) : ℕ := (playerOf s who).units.length

/-- The columns `range(BOARD_COLS)`. -/
def colsRange : List ℤ := (List.range BOARD_COLS.toNat).map (fun (n : ℕ) => (n : ℤ))

/-- `MTEnv._empty_back_cols`: back-row columns free on both boards. -/
def empty_back_cols (s : MTEnv) (who : ℤ) : List ℤ :=
  colsRange.filter (fun c =>
    decide ((dlookup s.p0.units (back_row who, c)).isNone = true ∧
            (dlookup s.p1.units (back_row who, c)).isNone = true))

/-- `MTEnv._has_empty_back_cell`. -/
def has_empty_back_cell (s : MTEnv) (who : ℤ) : Bool :=
  colsRange.any (fun c =>
    (dlookup s.p0.units (back_row who, c)).isNone &&
    (dlookup s.p1.units (back_row who, c)).isNone)

/-- `MTEnv._can_buy_from_slot`: slot in range and stocked, elixir covers
the price, board below the round cap, and some back-row cell free. -/
def can_buy_from_slot (cat : Catalog) (s : MTEnv) (who si : ℤ) : Bool :=
  let pl := playerOf s who
  if si < 0 ∨ (pl.shop.length : ℤ) ≤ si then false
  else
    match pl.shop.getD si.toNat none with
    | none => false
    | some cid =>
      let price := cost_of cat cid
      if pl.elixir < price then false
      else if unit_cap_for_round s.round ≤ (board_count s who : ℤ) then false
      else has_empty_back_cell s who

/-- Merge legality on a pair of cells: both occupied by the player, same
card id, same star below 3, and `abs(Δrow) + abs(Δcol) == 1`. -/
def merge_ok (pl : PlayerState) (a b : ℤ × ℤ) : Bool :=
  match dlookup pl.units a, dlookup pl.units b with
  | some u1, some u2 =>
    decide (u1.card_id = u2.card_id ∧ u1.star = u2.star ∧ u1.star < 3 ∧
      |a.1 - b.1| + |a.2 - b.2| = 1)
  | _, _ => false

/-- `MTEnv._can_any_action`: any buy, bench placement, merge, or sell. -/
def can_any_action (cat : Catalog) (s : MTEnv) (who : ℤ) : Bool :=
  let pl := playerOf s who
  ((List.range pl.shop.length).any (fun si => can_buy_from_slot cat s who (si : ℤ))) ||
  (decide (pl.bench ≠ []) && decide ((board_count s who : ℤ) < unit_cap_for_round s.round) &&
    has_empty_back_cell s who) ||
  ((pairsOf (dkeys pl.units)).any (fun ab => merge_ok pl ab.1 ab.2)) ||
  decide (pl.units ≠ [])

/-- `MTEnv.legal_actions`. -/
def legal_actions (cat : Catalog) (s : MTEnv) : List Action :=
  if s.done = true ∨ s.in_battle = true then [Action.END]
  else
    let who := s.turn
    let pl := playerOf s who
    let empty_cols := empty_back_cols s who
    let buys := (List.range pl.shop.length).flatMap (fun si =>
      if can_buy_from_slot cat s who (si : ℤ) then
        empty_cols.map (fun col => Action.BUY_PLACE (si : ℤ) col)
      else [])
    let places :=
      if pl.bench ≠ [] ∧ (board_count s who : ℤ) < unit_cap_for_round s.round then
        empty_cols.flatMap (fun col =>
          (List.range pl.bench.length).map (fun (bi : ℕ) => Action.PLACE_FROM_BENCH (bi : ℤ) col))
      else []
    let merges := (pairsOf (dkeys pl.units)).filterMap (fun ab =>
      if merge_ok pl ab.1 ab.2 then some (Action.MERGE ab.1 ab.2) else none)
    let sells := (dkeys pl.units).map (fun pos => Action.SELL pos)
    buys ++ places ++ merges ++ sells ++ [Action.END]

/-- `MTEnv._rand_offer()`: draw the next oracle offer. -/
def rand_offer (s : MTEnv) : ℤ × MTEnv :=
  (s.rng.headD 0, { s with rng := s.rng.tail })

/-- `MTEnv._ensure_shop`: append offers while the shop is short (fuelled;
at most `STORE_SLOTS` appends are ever needed). -/
def ensure_shop : ℕ → PlayerState → List ℤ → PlayerState × List ℤ
  | 0, pl, rng => (pl, rng)
  | n + 1, pl, rng =>
    if pl.shop.length < STORE_SLOTS then
      ensure_shop n { pl with shop := pl.shop ++ [some (rng.headD 0)] } rng.tail
    else (pl, rng)

/-- The action branch of `MTEnv.step`: apply one action's own mutations
(guards as in the source; a failed guard leaves the state untouched). -/
def apply_action (cat : Catalog) (s : MTEnv) (a : Action) : MTEnv :=
  let who := s.turn
  let pl := playerOf s who
  let br := back_row who
  match a with
  | .BUY_PLACE si col =>
    let pos := (br, col)
    if can_buy_from_slot cat s who si = true ∧ col ∈ empty_back_cols s who then
      if (dlookup s.p0.units pos).isNone = true ∧ (dlookup s.p1.units pos).isNone = true then
        match (if 0 ≤ si then pl.shop.getD si.toNat none else none) with
        | some cid =>
          let price := cost_of cat cid
          let ro := rand_offer s
          setPlayer ro.2 who
            { pl with elixir := pl.elixir - price
                      units := dinsert pl.units pos (Unit.from_card cat cid 1 pos)
                      shop := setAt pl.shop si.toNat (some ro.1) }
        | none => s
      else s
    else s
  | .PLACE_FROM_BENCH bi col =>
    let pos := (br, col)
    if (0 ≤ bi ∧ bi < (pl.bench.length : ℤ)) ∧
        (board_count s who : ℤ) < unit_cap_for_round s.round ∧
        col ∈ empty_back_cols s who then
      if (dlookup s.p0.units pos).isNone = true ∧ (dlookup s.p1.units pos).isNone = true then
        match pl.bench.get? bi.toNat with
        | some cs =>
          setPlayer s who
            { pl with bench := pl.bench.eraseIdx bi.toNat
                      units := dinsert pl.units pos (Unit.from_card cat cs.1 cs.2 pos) }
        | none => s
      else s
    else s
  | .SELL pos =>
    if (dlookup pl.units pos).isSome then
      setPlayer s who
        { pl with units := dremove pl.units pos, elixir := pl.elixir + SELL_REFUND }
    else s
  | .MERGE posA posB =>
    match dlookup pl.units posA, dlookup pl.units posB with
    | some u1, some u2 =>
      if u1.card_id = u2.card_id ∧ u1.star = u2.star ∧ u1.star < 3 then
        setPlayer s who
          { pl with units :=
              dremove (dinsert pl.units posA
                (Unit.from_card cat u1.card_id (u1.star + 1) posA)) posB }
      else s
    | _, _ => s
  | .END => s
  | .OTHER => s

/-- Post-action flag logic: an explicit END forces the pass flag off;
any other action recomputes it from `_can_any_action`. -/
def recompute_flag (cat : Catalog) (s : MTEnv) (a : Action) : MTEnv :=
  let who := s.turn
  let pl := playerOf s who
  setPlayer s who
    { pl with actions_left :=
        if a = Action.END then 0
        else if can_any_action cat s who then 1 else 0 }

/-- `battle_outcome` (`MTEnv._run_battle` lines 776-780): the winner is the
side with alive units when the other has none, else -1. -/
def battle_outcome (p0_alive p1_alive : ℕ) : ℤ :=
  if 0 < p0_alive ∧ p1_alive = 0 then 0
  else if 0 < p1_alive ∧ p0_alive = 0 then 1
  else -1

/-- The base-damage part of `_run_battle`: the loser loses
`max(1, winner's alive count)`; no winner, no damage. -/
def apply_battle_damage (p0_alive p1_alive : ℕ) (hp0 hp1 : ℤ) : ℤ × ℤ :=
  let winner := battle_outcome p0_alive p1_alive
  let hp1b := if winner = 0 then hp1 - max 1 (p0_alive : ℤ) else hp1
  let hp0b := if winner = 1 then hp0 - max 1 (p1_alive : ℤ) else hp0
  (hp0b, hp1b)

/-- Net effect of `_run_battle` on both base-health values, including the
final clamp `base_hp = max(0, base_hp)`. -/
def battle_base_hp (p0_alive p1_alive : ℕ) (hp0 hp1 : ℤ) : ℤ × ℤ :=
  let d := apply_battle_damage p0_alive p1_alive hp0 hp1
  (max 0 d.1, max 0 d.2)

/-- Fuel for the battle loop: `ABSOLUTE_BATTLE_TIME_CAP / SUB_TICK_DT`
iterations (the float accumulation of `t += dt` is modelled exactly). -/
def BATTLE_FUEL : ℕ := 3000

/-- The `while t < cap` battle loop: step until a side is wiped or the
time cap runs out. -/
def battleLoop (cat : Catalog) : ℕ → BattleEngine → BattleEngine
  | 0, e => e
  | n + 1, e =>
    let counts := e.alive_counts
    if counts.1 = 0 ∨ counts.2 = 0 then e
    else battleLoop cat n (e.step cat SUB_TICK_DT)

/-- `MTEnv._run_battle`: snapshot both boards into fresh units, run the
engine to wipe or time cap, apply base damage with the final clamp, and
write every engine unit (dead ones included) back to the boards keyed by
its rounded position. -/
def run_battle (cat : Catalog) (s : MTEnv) : MTEnv :=
  let s1 := { s with in_battle := true }
  let units : List (ℤ × Unit) :=
    s1.p0.units.map (fun pu => ((0 : ℤ), Unit.from_card cat pu.2.card_id pu.2.star pu.1)) ++
    s1.p1.units.map (fun pu => ((1 : ℤ), Unit.from_card cat pu.2.card_id pu.2.star pu.1))
  let engine : BattleEngine := { units := units, projectiles := [] }
  let eF := if END_ONLY_ON_WIPE then battleLoop cat BATTLE_FUEL engine
    else battleLoop cat 300 engine
  let counts := eF.alive_counts
  let dmg := apply_battle_damage counts.1 counts.2 s1.p0.base_hp s1.p1.base_hp
  let done2 := s1.done ∨ dmg.1 ≤ 0 ∨ dmg.2 ≤ 0
  let wb := eF.units.foldl (fun (acc : List ((ℤ × ℤ) × Unit) × List ((ℤ × ℤ) × Unit)) ou =>
      let pos := cellOf ou.2
      if ou.1 = 0 then (dinsert acc.1 pos ou.2, acc.2)
      else if ou.1 = 1 then (acc.1, dinsert acc.2 pos ou.2)
      else acc) ([], [])
  { s1 with in_battle := false
            done := done2
            p0 := { s1.p0 with base_hp := max 0 dmg.1, units := wb.1 }
            p1 := { s1.p1 with base_hp := max 0 dmg.2, units := wb.2 } }

/-- `MTEnv._end_round_reset`: advance the round, flip the active player,
reset flags and elixir, top up short shops, and finish the game past the
round cap. -/
def end_round_reset (s : MTEnv) : MTEnv :=
  let s1 := { s with round := s.round + 1, turn := 1 - s.turn }
  let s2 := { s1 with p0 := { s1.p0 with actions_left := 1, elixir := START_ELIXIR }
                      p1 := { s1.p1 with actions_left := 1, elixir := START_ELIXIR } }
  let e0 := ensure_shop STORE_SLOTS s2.p0 s2.rng
  let e1 := ensure_shop STORE_SLOTS s2.p1 e0.2
  let s3 := { s2 with p0 := e0.1, p1 := e1.1, rng := e1.2 }
  if MAX_ROUNDS < s3.round then { s3 with done := true } else s3

/-- Battle trigger: when both pass flags are down, run the battle and reset
the round. -/
def maybe_battle (cat : Catalog) (s : MTEnv) : MTEnv :=
  if s.p0.actions_left = 0 ∧ s.p1.actions_left = 0 then
    end_round_reset (run_battle cat s)
  else s

/-- Turn handoff: pass the turn only when the active player is out of
actions and the opponent is not. -/
def turn_handoff (s : MTEnv) : MTEnv :=
  if s.in_battle = false ∧ s.done = false then
    if s.turn = 0 ∧ s.p0.actions_left = 0 ∧ s.p1.actions_left ≠ 0 then { s with turn := 1 }
    else if s.turn = 1 ∧ s.p1.actions_left = 0 ∧ s.p0.actions_left ≠ 0 then { s with turn := 0 }
    else s
  else s

/-- `MTEnv.step`: a DONE state is returned unchanged; otherwise the action
branch runs, the pass flag is recomputed (forced off on END), a battle is
triggered when both flags are down, and the turn is handed off. -/
def stepAction (cat : Catalog) (s : MTEnv) (a : Action) : MTEnv :=
  if s.done = true then s
  else
    let s0 := if s.in_battle = true then { s with in_battle := false } else s
    turn_handoff (maybe_battle cat (recompute_flag cat (apply_action cat s0 a) a))

/-! ## Concrete fixtures shared by several counterexamples -/

/-- A catalog record that only states `range = 3` (a ranged unit whose
`projectile_speed` field the scraper omitted). -/
def rangedCard : Card :=
  { id := none, hp := none, damage := none, dps := none, hit_speed := none,
    range := some (.num 3), move_speed := none, projectile_speed := none,
    elixir := none, per_level := [] }

/-! ## Claim C10 -/

/-- Claim C10: every unit built by `Unit.from_card` has hp ≥ 1.0,
dps ≥ 0.1 and cooldown = 0.0, whatever the catalog binding, the card id,
the star, or the record's fields: the construction clamps
`hp = max(1.0, ...)`, `dps = max(0.1, ...)`, `cooldown = 0.0`. -/
theorem claim_C10_from_card_clamped (cat : Catalog) (card_id star : ℤ) (pos : ℤ × ℤ) :
    1 ≤ (Unit.from_card cat card_id star pos).hp ∧
    (1 : ℚ)/10 ≤ (Unit.from_card cat card_id star pos).dps ∧
    (Unit.from_card cat card_id star pos).cooldown = 0 := by
  refine ⟨?_, ?_, rfl⟩ <;> simp [Unit.from_card]

/-! ## Claim C7 -/

/-- Claim C7 (counterexample): a record lacking the `projectile_speed`
field does not resolve it to the claimed default 0.0 when its range
exceeds 1 — `rules.projectile_speed_for` falls back to the ranged default
6.0 instead. -/
theorem claim_C7_counterexample :
    rangedCard.projectile_speed = none ∧
    projectile_speed_for rangedCard = 6 ∧ projectile_speed_for rangedCard ≠ 0 := by
  refine ⟨rfl, by decide, by decide⟩

/-- Claim C7 (amended): absent fields resolve to `range = 1`,
`hit_speed = 1.0`, `move_speed = 1.0` and `cost = CARD_COST_DEFAULT`;
an absent `projectile_speed` resolves to 0.0 only when the resolved range
is ≤ 1 (melee), and to `DEFAULT_PROJECTILE_SPEED = 6.0` otherwise. -/
theorem claim_C7_defaults (c : Card) :
    (c.range = none → range_for c = DEFAULT_RANGE) ∧
    (c.hit_speed = none → hit_speed_for c = DEFAULT_HIT_SPEED) ∧
    (c.move_speed = none → move_speed_for c = DEFAULT_MOVE_SPEED) ∧
    (c.elixir = none → elixir_cost_for c = CARD_COST_DEFAULT) ∧
    (c.projectile_speed = none →
      projectile_speed_for c =
        if range_for c ≤ 1 then 0 else DEFAULT_PROJECTILE_SPEED) := by
  refine ⟨?_, ?_, ?_, ?_, ?_⟩ <;> intro h <;>
    simp [range_for, hit_speed_for, move_speed_for, elixir_cost_for,
      projectile_speed_for, pyNum, h]

/-- Claim C7 (witness): the defaults evaluated on the all-absent record
and the ranged-no-projectile-speed record. -/
theorem claim_C7_witness :
    range_for emptyCard = DEFAULT_RANGE ∧
    hit_speed_for emptyCard = DEFAULT_HIT_SPEED ∧
    move_speed_for emptyCard = DEFAULT_MOVE_SPEED ∧
    elixir_cost_for emptyCard = CARD_COST_DEFAULT ∧
    projectile_speed_for rangedCard =
      (if range_for rangedCard ≤ 1 then 0 else DEFAULT_PROJECTILE_SPEED) :=
  ⟨(claim_C7_defaults emptyCard).1 rfl,
   (claim_C7_defaults emptyCard).2.1 rfl,
   (claim_C7_defaults emptyCard).2.2.1 rfl,
   (claim_C7_defaults emptyCard).2.2.2.1 rfl,
   (claim_C7_defaults rangedCard).2.2.2.2 rfl⟩

/-! ## Projectile-pass lemmas (claims C4, C5, C8) -/

/-- A projectile that does not arrive in a pass survives it with its
remaining time decremented by `dt`, whatever damage the pass applies. -/
theorem projPassGo_mem (mask : List Bool) (dt : ℚ) (p : Projectile) :
    ∀ (ps : List Projectile) (units : List (ℤ × Unit)),
      p ∈ ps → dt < p.remaining →
      { p with remaining := p.remaining - dt } ∈ (projPassGo mask dt units ps).2 := by
  intro ps
  induction ps with
  | nil => intro units h; simp at h
  | cons q rest ih =>
    intro units hmem hlt
    rcases List.mem_cons.mp hmem with hq | hq
    · subst hq
      have hkeep : ¬ (p.remaining - dt ≤ 0) := by linarith
      simp only [projPassGo, if_neg hkeep]
      exact List.mem_cons_self _ _
    · by_cases harr : q.remaining - dt ≤ 0
      · simp only [projPassGo, if_pos harr]
        exact ih _ hq hlt
      · simp only [projPassGo, if_neg harr]
        exact List.mem_cons_of_mem _ (ih _ hq hlt)

/-- The attack loop only appends projectiles: membership is preserved. -/
theorem attackStep_proj_mem (cat : Catalog) (dt : ℚ)
    (st : List (ℤ × Unit) × List Projectile) (i : ℕ) (q : Projectile)
    (h : q ∈ st.2) : q ∈ (attackStep cat dt st i).2 := by
  unfold attackStep
  dsimp only
  repeat' split
  all_goals try exact h
  all_goals simp_all [List.mem_append]

/-- Membership in the projectile list survives the whole attack phase. -/
theorem attackPhase_proj_mem (cat : Catalog) (dt : ℚ) (q : Projectile) :
    ∀ (L : List ℕ) (st : List (ℤ × Unit) × List Projectile),
      q ∈ st.2 → q ∈ (L.foldl (attackStep cat dt) st).2 := by
  intro L
  induction L with
  | nil => intro st h; simpa using h
  | cons i rest ih =>
    intro st h
    exact ih _ (attackStep_proj_mem cat dt st i q h)

/-! ## Claim C4 -/

/-- Engine with no units and one in-flight projectile with 1s to travel. -/
def exEngineC4 : BattleEngine :=
  { units := [],
    projectiles := [{ owner := 0, dmg := 5, r := 0, c := 0, target_idx := 0, remaining := 1 }] }

/-- Claim C4 (counterexample): one `step(0.1)` call on an in-flight
projectile with 1.0s remaining leaves 0.8s, not the claimed 0.9s: the
projectile list is decremented once before movement and once again after
the attack phase. -/
theorem claim_C4_counterexample :
    (BattleEngine.step none exEngineC4 (1/10)).projectiles.map Projectile.remaining ≠
      [1 - 1/10] ∧
    (BattleEngine.step none exEngineC4 (1/10)).projectiles.map Projectile.remaining =
      [1 - 2 * (1/10)] := by
  constructor
  · decide
  · decide

/-- Claim C4 (amended): a projectile in flight at the start of
`BattleEngine.step(dt)` that does not arrive during the call has its
remaining travel time decreased by exactly `2·dt` — one decrement in the
pass at the top of `step` and one in the post-attack pass — so a
projectile created with travel time `hex_distance / projectile_speed`
arrives after about half that many simulated seconds. -/
theorem claim_C4_two_decrements (cat : Catalog) (e : BattleEngine) (dt : ℚ)
    (p : Projectile) (hdt : 0 ≤ dt) (hmem : p ∈ e.projectiles)
    (hfly : 2 * dt < p.remaining) :
    { p with remaining := p.remaining - 2 * dt } ∈ (e.step cat dt).projectiles := by
  have h1 : dt < p.remaining := by linarith
  have hm1 : { p with remaining := p.remaining - dt } ∈ (projPass dt e.units e.projectiles).2 :=
    projPassGo_mem _ dt p e.projectiles e.units hmem h1
  have hm2 : { p with remaining := p.remaining - dt } ∈
      (attackPhase cat dt (moveStage cat dt (projPass dt e.units e.projectiles).1)
        (projPass dt e.units e.projectiles).2).2 :=
    attackPhase_proj_mem cat dt _ _ _ hm1
  have h2 : dt < ({ p with remaining := p.remaining - dt } : Projectile).remaining := by
    show dt < p.remaining - dt
    linarith
  have hm3 := projPassGo_mem
    (((attackPhase cat dt (moveStage cat dt (projPass dt e.units e.projectiles).1)
        (projPass dt e.units e.projectiles).2).1).map (fun ou => ou.2.is_alive)) dt
    { p with remaining := p.remaining - dt } _
    (attackPhase cat dt (moveStage cat dt (projPass dt e.units e.projectiles).1)
      (projPass dt e.units e.projectiles).2).1 hm2 h2
  have heq : ({ { p with remaining := p.remaining - dt } with
      remaining := ({ p with remaining := p.remaining - dt } : Projectile).remaining - dt } : Projectile) =
      { p with remaining := p.remaining - 2 * dt } := by
    show ({ p with remaining := p.remaining - dt - dt } : Projectile) = _
    have harith : p.remaining - dt - dt = p.remaining - 2 * dt := by ring
    rw [harith]
  rw [heq] at hm3
  exact hm3

/-- Claim C4 (witness): the 2·dt decrement applied to the concrete
in-flight projectile of `exEngineC4`. -/
theorem claim_C4_witness :
    ({ owner := 0, dmg := 5, r := 0, c := 0, target_idx := 0,
       remaining := (1 : ℚ) - 2 * (1/10) } : Projectile) ∈
      (BattleEngine.step none exEngineC4 (1/10)).projectiles :=
  claim_C4_two_decrements none exEngineC4 (1/10)
    { owner := 0, dmg := 5, r := 0, c := 0, target_idx := 0, remaining := 1 }
    (by norm_num) (by decide) (by norm_num)

/-! ## Claim C5 -/

/-- Claim C5 (amended): in a projectile pass, a projectile whose travel
completes while its target index is out of roster bounds or its target
was already dead in the pass's start-of-pass alive snapshot applies no
damage to any unit and is removed — processing it is identical to not
having it at all (and the pass is a total function: no fault). Liveness
is the snapshot, so a target killed earlier within the same pass is NOT
protected (see the counterexample). Both passes of `BattleEngine.step`
use this function. -/
theorem claim_C5_fizzle (dt : ℚ) (units : List (ℤ × Unit)) (p : Projectile)
    (rest : List Projectile) (harr : p.remaining - dt ≤ 0)
    (hdead : p.target_idx < 0 ∨ (units.length : ℤ) ≤ p.target_idx ∨
      (units.map (fun ou => ou.2.is_alive)).getD p.target_idx.toNat false = false) :
    projPass dt units (p :: rest) = projPass dt units rest := by
  have hguard : ¬ (0 ≤ p.target_idx ∧ p.target_idx < (units.length : ℤ) ∧
      (units.map (fun ou => ou.2.is_alive)).getD p.target_idx.toNat false = true) := by
    rcases hdead with h | h | h
    · rintro ⟨h0, -, -⟩; omega
    · rintro ⟨-, h1, -⟩; omega
    · rintro ⟨-, -, h2⟩; rw [h] at h2; exact Bool.false_ne_true h2
  simp only [projPass, projPassGo, if_pos harr, if_neg hguard]

/-- A dead enemy used by the C5 witness. -/
def deadTarget : Unit :=
  { card_id := 0, star := 1, pos := (0, 0), hp := -2, dps := 1, cooldown := 0,
    move_target := none, reserved := none }

/-- A projectile about to arrive at the dead target. -/
def fizzleProj : Projectile :=
  { owner := 0, dmg := 5, r := 0, c := 0, target_idx := 0, remaining := 1/20 }

/-- Claim C5 (witness): the fizzle equation at a concrete dead target. -/
theorem claim_C5_witness :
    projPass (1/10) [(1, deadTarget)] [fizzleProj] = projPass (1/10) [(1, deadTarget)] [] :=
  claim_C5_fizzle (1/10) [(1, deadTarget)] fizzleProj [] (by decide)
    (Or.inr (Or.inr (by decide)))

/-- Engine for the C5 counterexample: an enemy with 1 hp and two identical
projectiles (5 damage each) arriving in the same pass. -/
def exEngineC5 : BattleEngine :=
  { units := [(1, { card_id := 0, star := 1, pos := (0, 0), hp := 1, dps := 1,
                    cooldown := 0, move_target := none, reserved := none })],
    projectiles := [
      { owner := 0, dmg := 5, r := 0, c := 0, target_idx := 0, remaining := 1/20 },
      { owner := 0, dmg := 5, r := 0, c := 0, target_idx := 0, remaining := 1/20 }] }

/-- Claim C5 (counterexample): the first projectile kills the target
(1 - 5 = -4); when the second one's travel completes the target is no
longer alive, yet its damage is still applied because liveness is checked
against the start-of-pass snapshot: the final hp is -9, where the claim
demands -4. -/
theorem claim_C5_counterexample :
    (BattleEngine.step none exEngineC5 (1/10)).units.map (fun ou => ou.2.hp) = [-9] ∧
    (BattleEngine.step none exEngineC5 (1/10)).units.map (fun ou => ou.2.hp) ≠ [-4] := by
  constructor
  · decide
  · decide

/-! ## Claim C6 -/

/-- Claim C6 (counterexample): a battle ending 3 alive vs 0 against a
loser at 2 base health does not reduce the loser's base health by
max(1, 3) = 3 — the final clamp `base_hp = max(0, base_hp)` stops it at
0, a decrease of only 2. -/
theorem claim_C6_counterexample :
    (battle_base_hp 3 0 10 2).2 ≠ 2 - 3 ∧ (battle_base_hp 3 0 10 2).2 = 0 ∧
    battle_outcome 3 0 = 0 := by
  refine ⟨by decide, by decide, by decide⟩

/-- Claim C6 (amended): the winner is the side with alive units when the
other side has none; with no winner neither base health changes; with a
winner, only the losing player's base health changes, decreasing by
max(1, winner's alive count) but clamped at zero (`max(0, ...)`), so the
decrease is exactly max(1, alive) only while the loser has that much
health left. Stated for the non-negative base-health values the game
maintains. -/
theorem claim_C6_outcome (a0 a1 : ℕ) (hp0 hp1 : ℤ) (h0 : 0 ≤ hp0) (h1 : 0 ≤ hp1) :
    (battle_outcome a0 a1 = 0 ↔ 0 < a0 ∧ a1 = 0) ∧
    (battle_outcome a0 a1 = 1 ↔ 0 < a1 ∧ a0 = 0) ∧
    (battle_outcome a0 a1 = -1 → battle_base_hp a0 a1 hp0 hp1 = (hp0, hp1)) ∧
    (battle_outcome a0 a1 = 0 →
      battle_base_hp a0 a1 hp0 hp1 = (hp0, max 0 (hp1 - max 1 (a0 : ℤ)))) ∧
    (battle_outcome a0 a1 = 1 →
      battle_base_hp a0 a1 hp0 hp1 = (max 0 (hp0 - max 1 (a1 : ℤ)), hp1)) := by
  simp only [battle_outcome, battle_base_hp, apply_battle_damage]
  refine ⟨?_, ?_, ?_, ?_, ?_⟩ <;>
    split_ifs <;> simp_all [Prod.ext_iff]

/-- Claim C6 (witness): a 3-vs-0 wipe against a loser with ample health
decreases the loser's base health by exactly 3 and leaves the winner's
untouched. -/
theorem claim_C6_witness :
    (battle_outcome 3 0 = 0 ↔ 0 < 3 ∧ 0 = 0) ∧
    (battle_outcome 3 0 = 1 ↔ 0 < 0 ∧ 3 = 0) ∧
    (battle_outcome 3 0 = -1 → battle_base_hp 3 0 10 10 = (10, 10)) ∧
    (battle_outcome 3 0 = 0 → battle_base_hp 3 0 10 10 = (10, max 0 (10 - max 1 (3 : ℤ)))) ∧
    (battle_outcome 3 0 = 1 → battle_base_hp 3 0 10 10 = (max 0 (10 - max 1 (0 : ℤ)), 10)) :=
  claim_C6_outcome 3 0 10 10 (by decide) (by decide)

/-! ## Dict and pair-enumeration lemmas -/

theorem dlookup_isSome_iff {β : Type} (d : List ((ℤ × ℤ) × β)) (k : ℤ × ℤ) :
    (dlookup d k).isSome = true ↔ k ∈ dkeys d := by
  induction d with
  | nil => simp [dlookup, dkeys]
  | cons kv rest ih =>
    obtain ⟨k0, v0⟩ := kv
    by_cases h : k0 = k
    · subst h
      simp [dlookup, dkeys]
    · simp [dlookup, dkeys, h, ih, Ne.symm h]

theorem pairsOf_mem_or {α : Type} (l : List α) (hnd : l.Nodup) (a b : α) (hne : a ≠ b) :
    ((a, b) ∈ pairsOf l ∨ (b, a) ∈ pairsOf l) ↔ (a ∈ l ∧ b ∈ l) := by
  induction l with
  | nil => simp [pairsOf]
  | cons x xs ih =>
    have hnd2 : xs.Nodup := hnd.of_cons
    have hx : x ∉ xs := (List.nodup_cons.mp hnd).1
    constructor
    · intro h
      rcases h with h | h
      · rcases List.mem_append.mp h with h | h
        · rcases List.mem_map.mp h with ⟨y, hy, hxy⟩
          obtain ⟨rfl, rfl⟩ := Prod.mk.injEq _ _ _ _ ▸ hxy
          exact ⟨List.mem_cons_self _ _, List.mem_cons_of_mem _ hy⟩
        · have := (ih hnd2).mp (Or.inl h)
          exact ⟨List.mem_cons_of_mem _ this.1, List.mem_cons_of_mem _ this.2⟩
      · rcases List.mem_append.mp h with h | h
        · rcases List.mem_map.mp h with ⟨y, hy, hxy⟩
          obtain ⟨rfl, rfl⟩ := Prod.mk.injEq _ _ _ _ ▸ hxy
          exact ⟨List.mem_cons_of_mem _ hy, List.mem_cons_self _ _⟩
        · have := (ih hnd2).mp (Or.inr h)
          exact ⟨List.mem_cons_of_mem _ this.1, List.mem_cons_of_mem _ this.2⟩
    · rintro ⟨ha, hb⟩
      by_cases hax : a = x
      · have hbxs : b ∈ xs := by
          rcases List.mem_cons.mp hb with hbeq | hbm
          · exact absurd (hax.trans hbeq.symm) hne
          · exact hbm
        refine Or.inl (List.mem_append.mpr (Or.inl (List.mem_map.mpr ⟨b, hbxs, ?_⟩)))
        rw [hax]
      · have haxs : a ∈ xs := by
          rcases List.mem_cons.mp ha with haeq | ham
          · exact absurd haeq hax
          · exact ham
        by_cases hbx : b = x
        · refine Or.inr (List.mem_append.mpr (Or.inl (List.mem_map.mpr ⟨a, haxs, ?_⟩)))
          rw [hbx]
        · have hbxs : b ∈ xs := by
            rcases List.mem_cons.mp hb with hbeq | hbm
            · exact absurd hbeq hbx
            · exact hbm
          rcases (ih hnd2).mpr ⟨haxs, hbxs⟩ with h | h
          · exact Or.inl (List.mem_append.mpr (Or.inr h))
          · exact Or.inr (List.mem_append.mpr (Or.inr h))

theorem merge_ok_iff (pl : PlayerState) (a b : ℤ × ℤ) :
    merge_ok pl a b = true ↔ ∃ u1 u2, dlookup pl.units a = some u1 ∧
      dlookup pl.units b = some u2 ∧ u1.card_id = u2.card_id ∧ u1.star = u2.star ∧
      u1.star < 3 ∧ |a.1 - b.1| + |a.2 - b.2| = 1 := by
  unfold merge_ok
  constructor
  · intro h
    split at h
    next u1 u2 h1 h2 =>
      exact ⟨u1, u2, h1, h2, by simpa using h⟩
    next => simp at h
  · rintro ⟨u1, u2, h1, h2, hc, hs, hlt, hd⟩
    rw [h1, h2]
    exact decide_eq_true ⟨hc, hs, hlt, hd⟩

theorem merge_ok_ne (pl : PlayerState) (a b : ℤ × ℤ) (h : merge_ok pl a b = true) :
    a ≠ b := by
  rcases (merge_ok_iff pl a b).mp h with ⟨u1, u2, -, -, -, -, -, hd⟩
  intro hab
  subst hab
  simp at hd

theorem merge_ok_comm (pl : PlayerState) (a b : ℤ × ℤ) :
    merge_ok pl a b = true ↔ merge_ok pl b a = true := by
  rw [merge_ok_iff, merge_ok_iff]
  constructor
  · rintro ⟨u1, u2, h1, h2, hc, hs, hlt, hd⟩
    exact ⟨u2, u1, h2, h1, hc.symm, hs.symm, hs ▸ hlt, by
      rw [abs_sub_comm b.1 a.1, abs_sub_comm b.2 a.2]; exact hd⟩
  · rintro ⟨u1, u2, h1, h2, hc, hs, hlt, hd⟩
    exact ⟨u2, u1, h2, h1, hc.symm, hs.symm, hs ▸ hlt, by
      rw [abs_sub_comm a.1 b.1, abs_sub_comm a.2 b.2]; exact hd⟩

/-- Characterisation of `can_buy_from_slot`. -/
theorem can_buy_iff (cat : Catalog) (s : MTEnv) (who si : ℤ) :
    can_buy_from_slot cat s who si = true ↔
      (0 ≤ si ∧ si < ((playerOf s who).shop.length : ℤ)) ∧
      (∃ cid, (playerOf s who).shop.getD si.toNat none = some cid ∧
        cost_of cat cid ≤ (playerOf s who).elixir) ∧
      (board_count s who : ℤ) < unit_cap_for_round s.round ∧
      has_empty_back_cell s who = true := by
  simp only [can_buy_from_slot]
  by_cases h1 : si < 0 ∨ ((playerOf s who).shop.length : ℤ) ≤ si
  · rw [if_pos h1]
    constructor
    · intro h
      exact absurd h (by simp)
    · rintro ⟨⟨hs1, hs2⟩, -⟩
      omega
  · rw [if_neg h1]
    push_neg at h1
    rcases hg : (playerOf s who).shop.getD si.toNat none with _ | cid
    · simp [hg]
    · simp only [hg]
      by_cases h2 : (playerOf s who).elixir < cost_of cat cid
      · rw [if_pos h2]
        constructor
        · intro h
          exact absurd h (by simp)
        · rintro ⟨-, ⟨cid2, hcid2, hel⟩, -⟩
          cases hcid2
          omega
      · rw [if_neg h2]
        by_cases h3 : unit_cap_for_round s.round ≤ (board_count s who : ℤ)
        · rw [if_pos h3]
          constructor
          · intro h
            exact absurd h (by simp)
          · rintro ⟨-, -, hcap, -⟩
            omega
        · rw [if_neg h3]
          push_neg at h2 h3
          constructor
          · intro h
            exact ⟨⟨by omega, by omega⟩, ⟨cid, rfl, h2⟩, h3, h⟩
          · rintro ⟨-, -, -, h⟩
            exact h

/-! ## Step-pipeline lemmas -/

theorem playerOf_setPlayer_same (s : MTEnv) (who : ℤ) (pl : PlayerState) :
    playerOf (setPlayer s who pl) who = pl := by
  by_cases h : who = 0 <;> simp [playerOf, setPlayer, h]

theorem stepAction_eq (cat : Catalog) (s : MTEnv) (a : Action)
    (hd : s.done = false) (hb : s.in_battle = false) :
    stepAction cat s a =
      turn_handoff (maybe_battle cat (recompute_flag cat (apply_action cat s a) a)) := by
  simp [stepAction, hd, hb]

theorem maybe_battle_skip (cat : Catalog) (s : MTEnv)
    (h : ¬ (s.p0.actions_left = 0 ∧ s.p1.actions_left = 0)) :
    maybe_battle cat s = s := by
  simp [maybe_battle, h]

theorem turn_handoff_players (s : MTEnv) :
    (turn_handoff s).p0 = s.p0 ∧ (turn_handoff s).p1 = s.p1 ∧
    (turn_handoff s).round = s.round ∧ (turn_handoff s).done = s.done ∧
    (turn_handoff s).in_battle = s.in_battle ∧ (turn_handoff s).rng = s.rng := by
  unfold turn_handoff
  split_ifs <;> simp

/-- `playerOf` only reads the two player fields. -/
theorem playerOf_congr (x y : MTEnv) (who : ℤ) (h0 : x.p0 = y.p0) (h1 : x.p1 = y.p1) :
    playerOf x who = playerOf y who := by
  by_cases h : who = 0 <;> simp [playerOf, h, h0, h1]

theorem setPlayer_turn (s : MTEnv) (who : ℤ) (pl : PlayerState) :
    (setPlayer s who pl).turn = s.turn := by
  by_cases h : who = 0 <;> simp [setPlayer, h]

theorem setPlayer_p1_of_zero (s : MTEnv) (pl : PlayerState) :
    (setPlayer s 0 pl).p1 = s.p1 := by
  simp [setPlayer]

theorem setPlayer_p0_of_ne (s : MTEnv) (who : ℤ) (pl : PlayerState) (h : who ≠ 0) :
    (setPlayer s who pl).p0 = s.p0 := by
  simp [setPlayer, h]

theorem playerOf_turn_handoff (t : MTEnv) (w : ℤ) :
    playerOf (turn_handoff t) w = playerOf t w := by
  obtain ⟨h0, h1, -⟩ := turn_handoff_players t
  exact playerOf_congr _ _ w h0 h1

theorem recompute_flag_units (cat : Catalog) (t : MTEnv) (a : Action) (w : ℤ)
    (h : w = t.turn) :
    (playerOf (recompute_flag cat t a) w).units = (playerOf t w).units := by
  subst h
  unfold recompute_flag
  rw [playerOf_setPlayer_same]

theorem recompute_flag_p1_of_turn0 (cat : Catalog) (t : MTEnv) (a : Action)
    (h : t.turn = 0) : (recompute_flag cat t a).p1 = t.p1 := by
  simp [recompute_flag, setPlayer, h]

theorem recompute_flag_p0_of_turn_ne (cat : Catalog) (t : MTEnv) (a : Action)
    (h : t.turn ≠ 0) : (recompute_flag cat t a).p0 = t.p0 := by
  simp [recompute_flag, setPlayer, h]

/-- The full no-battle bookkeeping equation: when the action's own branch
did not change the state and a battle cannot trigger, `step` only rewrites
the active player's pass flag and possibly hands the turn over. -/
theorem step_noop_eq (cat : Catalog) (s : MTEnv) (a : Action)
    (hd : s.done = false) (hb : s.in_battle = false)
    (hA : apply_action cat s a = s)
    (ht : s.turn = 0 ∨ s.turn = 1)
    (hof : (if s.turn = 0 then s.p1 else s.p0).actions_left ≠ 0) :
    stepAction cat s a =
      { s with
        p0 := if s.turn = 0 then
            { s.p0 with actions_left :=
                if a = Action.END then 0
                else if can_any_action cat s s.turn = true then 1 else 0 }
          else s.p0
        p1 := if s.turn = 0 then s.p1
          else
            { s.p1 with actions_left :=
                if a = Action.END then 0
                else if can_any_action cat s s.turn = true then 1 else 0 }
        turn := if (if a = Action.END then (0 : ℤ)
            else if can_any_action cat s s.turn = true then 1 else 0) = 0 then
            1 - s.turn
          else s.turn } := by
  rw [stepAction_eq cat s a hd hb, hA]
  rcases ht with h0 | h1
  · rw [h0] at hof ⊢
    simp only [if_pos rfl]
    by_cases hF : (if a = Action.END then (0 : ℤ)
        else if can_any_action cat s 0 = true then 1 else 0) = 0
    · rw [if_pos hF]
      have hrc : recompute_flag cat s a =
          { s with p0 := { s.p0 with actions_left := 0 } } := by
        simp only [recompute_flag, h0, playerOf, setPlayer, if_pos rfl]
        split_ifs at hF ⊢ <;> simp_all
      rw [hrc]
      rw [maybe_battle_skip]
      · unfold turn_handoff
        simp [hb, hd, h0, hof, hF] <;> split_ifs at hF ⊢ <;> simp_all
      · simp only []
        intro hcon
        exact hof hcon.2
    · rw [if_neg hF]
      have hF1 : (if a = Action.END then (0 : ℤ)
          else if can_any_action cat s 0 = true then 1 else 0) = 1 := by
        split_ifs at hF ⊢ <;> simp_all
      have hrc : recompute_flag cat s a =
          { s with p0 := { s.p0 with actions_left := 1 } } := by
        simp only [recompute_flag, h0, playerOf, setPlayer, if_pos rfl]
        split_ifs at hF1 ⊢ <;> simp_all
      rw [hrc]
      rw [maybe_battle_skip]
      · unfold turn_handoff
        simp [hb, hd, h0] <;> split_ifs at hF1 ⊢ <;> simp_all
      · simp only []
        intro hcon
        simp at hcon
  · rw [h1] at hof ⊢
    have h10 : ¬ ((1 : ℤ) = 0) := by omega
    simp only [if_neg h10]
    simp only [if_neg h10] at hof
    by_cases hF : (if a = Action.END then (0 : ℤ)
        else if can_any_action cat s 1 = true then 1 else 0) = 0
    · rw [if_pos hF]
      have hrc : recompute_flag cat s a =
          { s with p1 := { s.p1 with actions_left := 0 } } := by
        simp only [recompute_flag, h1, playerOf, setPlayer, if_neg h10]
        split_ifs at hF ⊢ <;> simp_all
      rw [hrc]
      rw [maybe_battle_skip]
      · unfold turn_handoff
        simp [hb, hd, h1, hof, hF, h10] <;> split_ifs at hF ⊢ <;> simp_all
      · simp only []
        intro hcon
        exact hof hcon.1
    · rw [if_neg hF]
      have hF1 : (if a = Action.END then (0 : ℤ)
          else if can_any_action cat s 1 = true then 1 else 0) = 1 := by
        split_ifs at hF ⊢ <;> simp_all
      have hrc : recompute_flag cat s a =
          { s with p1 := { s.p1 with actions_left := 1 } } := by
        simp only [recompute_flag, h1, playerOf, setPlayer, if_neg h10]
        split_ifs at hF1 ⊢ <;> simp_all
      rw [hrc]
      rw [maybe_battle_skip]
      · unfold turn_handoff
        simp [hb, hd, h1] <;> split_ifs at hF1 ⊢ <;> simp_all
      · simp only []
        intro hcon
        simp at hcon

/-! ## Claim C1 -/

/-- Deploy state for the C1 scenario: round 1 (cap 2), active player 0
with 0 elixir, an empty bench and a full board of two distinct units. -/
def exStateC1 : MTEnv :=
  { round := 1
    turn := 0
    p0 := { elixir := 0, actions_left := 1, shop := [some 0, some 1, some 2], bench := [],
            units := [((0, 0), Unit.from_card none 0 1 (0, 0)),
                      ((0, 1), Unit.from_card none 1 1 (0, 1))],
            base_hp := 10 }
    p1 := { elixir := 4, actions_left := 1, shop := [some 0, some 0, some 0], bench := [],
            units := [], base_hp := 10 }
    in_battle := false
    done := false
    rng := [0, 0, 0, 0] }

/-- Claim C1 (counterexample): in a DEPLOY state with 0 elixir, an empty
bench and a board at the unit cap, `legal_actions` is not `[END]` — it
also offers a SELL for every owned unit. -/
theorem claim_C1_counterexample :
    exStateC1.done = false ∧ exStateC1.in_battle = false ∧
    (playerOf exStateC1 exStateC1.turn).elixir = 0 ∧
    (playerOf exStateC1 exStateC1.turn).bench = [] ∧
    (board_count exStateC1 exStateC1.turn : ℤ) = unit_cap_for_round exStateC1.round ∧
    legal_actions none exStateC1 ≠ [Action.END] ∧
    Action.SELL (0, 0) ∈ legal_actions none exStateC1 := by
  refine ⟨rfl, rfl, by decide, by decide, by decide, by decide, by decide⟩

/-- Claim C1 (amended): in a DEPLOY state whose active player has an empty
bench and a board at (or above) the unit cap, `legal_actions` offers no
BUY_PLACE and no PLACE_FROM_BENCH, but besides END it still offers a SELL
for every owned unit (and MERGEs for matching pairs), so END is not alone
on a full board; stepping END forces the pass flag off and hands the turn
to the opponent (when the opponent can still act) without mutating
boards, elixir, bench, shop, base health, round or phase. -/
theorem claim_C1_full_board (cat : Catalog) (s : MTEnv)
    (hd : s.done = false) (hb : s.in_battle = false)
    (hbench : (playerOf s s.turn).bench = [])
    (hcap : unit_cap_for_round s.round ≤ (board_count s s.turn : ℤ))
    (ht : s.turn = 0 ∨ s.turn = 1)
    (hof : (if s.turn = 0 then s.p1 else s.p0).actions_left ≠ 0) :
    Action.END ∈ legal_actions cat s ∧
    (∀ si col, Action.BUY_PLACE si col ∉ legal_actions cat s) ∧
    (∀ bi col, Action.PLACE_FROM_BENCH bi col ∉ legal_actions cat s) ∧
    (∀ pos, (dlookup (playerOf s s.turn).units pos).isSome = true →
      Action.SELL pos ∈ legal_actions cat s) ∧
    stepAction cat s Action.END =
      { s with
        p0 := if s.turn = 0 then { s.p0 with actions_left := 0 } else s.p0
        p1 := if s.turn = 0 then s.p1 else { s.p1 with actions_left := 0 }
        turn := 1 - s.turn } := by
  refine ⟨?_, ?_, ?_, ?_, ?_⟩
  · unfold legal_actions
    split_ifs <;> simp
  · intro si col h
    simp only [legal_actions, hd, hb] at h
    simp only [Bool.false_eq_true, or_self, if_false] at h
    rcases List.mem_append.mp h with h | h
    swap
    · simp at h
    rcases List.mem_append.mp h with h | h
    swap
    · simp at h
    rcases List.mem_append.mp h with h | h
    swap
    · simp only [List.mem_filterMap] at h
      rcases h with ⟨ab, -, heq⟩
      rw [Option.ite_none_right_eq_some] at heq
      simp at heq
    rcases List.mem_append.mp h with h | h
    swap
    · split_ifs at h with hcond
      · simp at h
      · simp at h
    simp only [List.mem_flatMap, List.mem_range] at h
    rcases h with ⟨n, hn, hmem⟩
    by_cases hc : can_buy_from_slot cat s s.turn (n : ℤ) = true
    · have := ((can_buy_iff cat s s.turn (n : ℤ)).mp hc).2.2.1
      omega
    · rw [if_neg hc] at hmem
      exact absurd hmem (List.not_mem_nil _)
  · intro bi col h
    simp only [legal_actions, hd, hb] at h
    simp only [Bool.false_eq_true, or_self, if_false] at h
    rcases List.mem_append.mp h with h | h
    swap
    · simp at h
    rcases List.mem_append.mp h with h | h
    swap
    · simp at h
    rcases List.mem_append.mp h with h | h
    swap
    · simp only [List.mem_filterMap] at h
      rcases h with ⟨ab, -, heq⟩
      rw [Option.ite_none_right_eq_some] at heq
      simp at heq
    rcases List.mem_append.mp h with h | h
    swap
    · split_ifs at h with hcond
      · rcases hcond with ⟨-, hlt⟩
        omega
      · simp at h
    simp only [List.mem_flatMap, List.mem_range] at h
    rcases h with ⟨n, hn, hmem⟩
    by_cases hc : can_buy_from_slot cat s s.turn (n : ℤ) = true
    · rw [if_pos hc] at hmem
      rcases List.mem_map.mp hmem with ⟨col2, -, heq⟩
      cases heq
    · rw [if_neg hc] at hmem
      exact absurd hmem (List.not_mem_nil _)
  · intro pos hpos
    have hk : pos ∈ dkeys (playerOf s s.turn).units := (dlookup_isSome_iff _ _).mp hpos
    simp only [legal_actions, hd, hb]
    simp only [Bool.false_eq_true, or_self, if_false]
    refine List.mem_append.mpr (Or.inl (List.mem_append.mpr (Or.inr ?_)))
    exact List.mem_map.mpr ⟨pos, hk, rfl⟩
  · have := step_noop_eq cat s Action.END hd hb rfl ht hof
    simpa using this

/-- Claim C1 (witness): the amended statement evaluated on `exStateC1`. -/
theorem claim_C1_witness :
    Action.END ∈ legal_actions none exStateC1 ∧
    (∀ si col, Action.BUY_PLACE si col ∉ legal_actions none exStateC1) ∧
    (∀ bi col, Action.PLACE_FROM_BENCH bi col ∉ legal_actions none exStateC1) ∧
    (∀ pos, (dlookup (playerOf exStateC1 exStateC1.turn).units pos).isSome = true →
      Action.SELL pos ∈ legal_actions none exStateC1) ∧
    stepAction none exStateC1 Action.END =
      { exStateC1 with
        p0 := if exStateC1.turn = 0 then { exStateC1.p0 with actions_left := 0 }
          else exStateC1.p0
        p1 := if exStateC1.turn = 0 then exStateC1.p1
          else { exStateC1.p1 with actions_left := 0 }
        turn := 1 - exStateC1.turn } :=
  claim_C1_full_board none exStateC1 rfl rfl (by decide) (by decide)
    (Or.inl rfl) (by decide)

/-! ## Targeted membership lemmas for `legal_actions` -/

theorem mem_legal_end (cat : Catalog) (s : MTEnv) :
    Action.END ∈ legal_actions cat s := by
  unfold legal_actions
  split_ifs <;> simp

theorem mem_legal_sell (cat : Catalog) (s : MTEnv) (pos : ℤ × ℤ)
    (hd : s.done = false) (hb : s.in_battle = false)
    (hpos : (dlookup (playerOf s s.turn).units pos).isSome = true) :
    Action.SELL pos ∈ legal_actions cat s := by
  have hk : pos ∈ dkeys (playerOf s s.turn).units := (dlookup_isSome_iff _ _).mp hpos
  simp only [legal_actions, hd, hb]
  simp only [Bool.false_eq_true, or_self, if_false]
  refine List.mem_append.mpr (Or.inl (List.mem_append.mpr (Or.inr ?_)))
  exact List.mem_map.mpr ⟨pos, hk, rfl⟩

theorem mem_legal_buy (cat : Catalog) (s : MTEnv) (si col : ℤ)
    (hd : s.done = false) (hb : s.in_battle = false)
    (hc : can_buy_from_slot cat s s.turn si = true)
    (hcol : col ∈ empty_back_cols s s.turn) :
    Action.BUY_PLACE si col ∈ legal_actions cat s := by
  have hrange := ((can_buy_iff cat s s.turn si).mp hc).1
  simp only [legal_actions, hd, hb]
  simp only [Bool.false_eq_true, or_self, if_false]
  refine List.mem_append.mpr (Or.inl (List.mem_append.mpr (Or.inl
    (List.mem_append.mpr (Or.inl (List.mem_append.mpr (Or.inl ?_)))))))
  refine List.mem_flatMap.mpr ⟨si.toNat, List.mem_range.mpr (by omega), ?_⟩
  have hcast : ((si.toNat : ℤ)) = si := by omega
  rw [hcast, if_pos hc]
  exact List.mem_map.mpr ⟨col, hcol, rfl⟩

theorem mem_legal_place (cat : Catalog) (s : MTEnv) (bi col : ℤ)
    (hd : s.done = false) (hb : s.in_battle = false)
    (hbi : 0 ≤ bi ∧ bi < ((playerOf s s.turn).bench.length : ℤ))
    (hcap : (board_count s s.turn : ℤ) < unit_cap_for_round s.round)
    (hcol : col ∈ empty_back_cols s s.turn) :
    Action.PLACE_FROM_BENCH bi col ∈ legal_actions cat s := by
  simp only [legal_actions, hd, hb]
  simp only [Bool.false_eq_true, or_self, if_false]
  refine List.mem_append.mpr (Or.inl (List.mem_append.mpr (Or.inl
    (List.mem_append.mpr (Or.inl (List.mem_append.mpr (Or.inr ?_)))))))
  have hne : (playerOf s s.turn).bench ≠ [] := by
    intro hcon
    rw [hcon] at hbi
    simp at hbi
    omega
  rw [if_pos ⟨hne, hcap⟩]
  refine List.mem_flatMap.mpr ⟨col, hcol, ?_⟩
  have hlt : bi.toNat < (playerOf s s.turn).bench.length := by omega
  have hcast : ((bi.toNat : ℤ)) = bi := by omega
  refine List.mem_map.mpr ⟨bi.toNat, List.mem_range.mpr hlt, ?_⟩
  rw [hcast]

theorem mem_legal_merge_iff (cat : Catalog) (s : MTEnv) (x y : ℤ × ℤ)
    (hd : s.done = false) (hb : s.in_battle = false) :
    Action.MERGE x y ∈ legal_actions cat s ↔
      (x, y) ∈ pairsOf (dkeys (playerOf s s.turn).units) ∧
        merge_ok (playerOf s s.turn) x y = true := by
  simp only [legal_actions, hd, hb]
  simp only [Bool.false_eq_true, or_self, if_false]
  constructor
  · intro h
    rcases List.mem_append.mp h with h | h
    swap
    · simp at h
    rcases List.mem_append.mp h with h | h
    swap
    · simp at h
    rcases List.mem_append.mp h with h | h
    swap
    · simp only [List.mem_filterMap] at h
      rcases h with ⟨ab, hab, heq⟩
      rw [Option.ite_none_right_eq_some] at heq
      obtain ⟨hok, heq2⟩ := heq
      have h1 : ab.1 = x := by
        have := congrArg (fun z => match z with
          | Action.MERGE u _ => u
          | _ => (0, 0)) heq2
        simpa using this
      have h2 : ab.2 = y := by
        have := congrArg (fun z => match z with
          | Action.MERGE _ v => v
          | _ => (0, 0)) heq2
        simpa using this
      have hab2 : ab = (x, y) := by
        obtain ⟨a1, a2⟩ := ab
        simp only at h1 h2
        rw [h1, h2]
      rw [hab2] at hab hok
      exact ⟨hab, hok⟩
    rcases List.mem_append.mp h with h | h
    swap
    · split_ifs at h with hcond
      · simp at h
      · simp at h
    · simp only [List.mem_flatMap, List.mem_range] at h
      rcases h with ⟨n, hn, hmem⟩
      by_cases hc : can_buy_from_slot cat s s.turn (n : ℤ) = true
      · rw [if_pos hc] at hmem
        rcases List.mem_map.mp hmem with ⟨col2, -, heq⟩
        cases heq
      · rw [if_neg hc] at hmem
        exact absurd hmem (List.not_mem_nil _)
  · rintro ⟨hpair, hok⟩
    refine List.mem_append.mpr (Or.inl (List.mem_append.mpr (Or.inl
      (List.mem_append.mpr (Or.inr ?_)))))
    exact List.mem_filterMap.mpr ⟨(x, y), hpair, by rw [if_pos hok]⟩

/-! ## Claim C3 -/

/-- Deploy state with two same-type star-1 units at the non-adjacent
cells (1,1) and (2,2) (hex-adjacent, but not at Manhattan distance 1). -/
def exStateC3 : MTEnv :=
  { round := 1
    turn := 0
    p0 := { elixir := 0, actions_left := 1, shop := [some 0, some 1, some 2], bench := [],
            units := [((1, 1), Unit.from_card none 0 1 (1, 1)),
                      ((2, 2), Unit.from_card none 0 1 (2, 2))],
            base_hp := 10 }
    p1 := { elixir := 4, actions_left := 1, shop := [some 0, some 0, some 0], bench := [],
            units := [], base_hp := 10 }
    in_battle := false
    done := false
    rng := [0, 0, 0, 0] }

/-- Claim C3 (counterexample): `MERGE((1,1),(2,2))` is not in the
legal-action list of `exStateC3` (the cells are not orthogonally
adjacent), yet `step` merges the two units anyway, mutating the board:
invalid actions are NOT always a no-op. -/
theorem claim_C3_counterexample :
    exStateC3.done = false ∧
    Action.MERGE (1, 1) (2, 2) ∉ legal_actions none exStateC3 ∧
    (stepAction none exStateC3 (Action.MERGE (1, 1) (2, 2))).p0.units ≠
      exStateC3.p0.units := by
  refine ⟨rfl, by decide, by decide⟩

/-- Claim C3 (amended): an action outside the legal-action list leaves
boards, elixir, bench, shop, base health, round and phase unchanged —
except for a MERGE of two same-type, same-star(<3) cells, which `step`
performs even when the cells are not adjacent (its guard omits the
adjacency check) — but the shared post-action bookkeeping still runs: the
active player's pass flag is recomputed from `_can_any_action`, and when
it drops to 0 the turn passes to the opponent (here stated for states
where the opponent can still act, so no battle triggers). -/
theorem claim_C3_invalid_action (cat : Catalog) (s : MTEnv) (a : Action)
    (hd : s.done = false) (hb : s.in_battle = false)
    (ht : s.turn = 0 ∨ s.turn = 1)
    (hof : (if s.turn = 0 then s.p1 else s.p0).actions_left ≠ 0)
    (hinv : a ∉ legal_actions cat s)
    (hmg : ∀ p q u1 u2, a = Action.MERGE p q →
      dlookup (playerOf s s.turn).units p = some u1 →
      dlookup (playerOf s s.turn).units q = some u2 →
      ¬ (u1.card_id = u2.card_id ∧ u1.star = u2.star ∧ u1.star < 3)) :
    stepAction cat s a =
      { s with
        p0 := if s.turn = 0 then
            { s.p0 with actions_left := if can_any_action cat s s.turn = true then 1 else 0 }
          else s.p0
        p1 := if s.turn = 0 then s.p1
          else
            { s.p1 with actions_left := if can_any_action cat s s.turn = true then 1 else 0 }
        turn := if can_any_action cat s s.turn = true then s.turn else 1 - s.turn } := by
  have hne : a ≠ Action.END := by
    intro hcon
    exact hinv (hcon ▸ mem_legal_end cat s)
  have hA : apply_action cat s a = s := by
    cases a with
    | BUY_PLACE si col =>
      simp only [apply_action]
      by_cases hg : can_buy_from_slot cat s s.turn si = true ∧
          col ∈ empty_back_cols s s.turn
      · exact absurd (mem_legal_buy cat s si col hd hb hg.1 hg.2) hinv
      · rw [if_neg hg]
    | PLACE_FROM_BENCH bi col =>
      simp only [apply_action]
      by_cases hg : (0 ≤ bi ∧ bi < ((playerOf s s.turn).bench.length : ℤ)) ∧
          (board_count s s.turn : ℤ) < unit_cap_for_round s.round ∧
          col ∈ empty_back_cols s s.turn
      · exact absurd (mem_legal_place cat s bi col hd hb hg.1 hg.2.1 hg.2.2) hinv
      · rw [if_neg hg]
    | SELL pos =>
      simp only [apply_action]
      by_cases hg : (dlookup (playerOf s s.turn).units pos).isSome = true
      · exact absurd (mem_legal_sell cat s pos hd hb hg) hinv
      · simp [hg]
    | MERGE p q =>
      simp only [apply_action]
      rcases h1 : dlookup (playerOf s s.turn).units p with _ | u1
      · rfl
      rcases h2 : dlookup (playerOf s s.turn).units q with _ | u2
      · rfl
      have hnc := hmg p q u1 u2 rfl h1 h2
      dsimp only
      rw [if_neg hnc]
    | END => rfl
    | OTHER => rfl
  have := step_noop_eq cat s a hd hb hA ht hof
  rw [this]
  simp only [if_neg hne]
  by_cases hc : can_any_action cat s s.turn = true
  · simp [hc]
  · simp [hc]

/-- Claim C3 (witness): the bookkeeping equation for the invalid action
`SELL((5,5))` (an unoccupied cell) in `exStateC3`. -/
theorem claim_C3_witness :
    stepAction none exStateC3 (Action.SELL (5, 5)) =
      { exStateC3 with
        p0 := if exStateC3.turn = 0 then
            { exStateC3.p0 with actions_left :=
                if can_any_action none exStateC3 exStateC3.turn = true then 1 else 0 }
          else exStateC3.p0
        p1 := if exStateC3.turn = 0 then exStateC3.p1
          else
            { exStateC3.p1 with actions_left :=
                if can_any_action none exStateC3 exStateC3.turn = true then 1 else 0 }
        turn := if can_any_action none exStateC3 exStateC3.turn = true then exStateC3.turn
          else 1 - exStateC3.turn } :=
  claim_C3_invalid_action none exStateC3 (Action.SELL (5, 5)) rfl rfl (Or.inl rfl)
    (by decide) (by decide)
    (by intro p q u1 u2 h _ _; exact absurd h (by simp))

/-! ## Claim C2 -/

/-- Claim C2 (counterexample): in `exStateC3` the cells (1,1) and (2,2)
are hex-adjacent on the odd-row-offset lattice and hold two units of the
same type and star < 3 owned by the active player, yet `legal_actions`
lists no MERGE for them (in either argument order): merge legality uses
Manhattan adjacency `abs(Δr)+abs(Δc) == 1`, not hex adjacency. -/
theorem claim_C2_counterexample :
    hex_adjacent (1, 1) (2, 2) = true ∧
    (dlookup exStateC3.p0.units (1, 1) = some (Unit.from_card none 0 1 (1, 1)) ∧
     dlookup exStateC3.p0.units (2, 2) = some (Unit.from_card none 0 1 (2, 2)) ∧
     (Unit.from_card none 0 1 (1, 1)).card_id = (Unit.from_card none 0 1 (2, 2)).card_id ∧
     (Unit.from_card none 0 1 (1, 1)).star = (Unit.from_card none 0 1 (2, 2)).star ∧
     (Unit.from_card none 0 1 (1, 1)).star < 3) ∧
    Action.MERGE (1, 1) (2, 2) ∉ legal_actions none exStateC3 ∧
    Action.MERGE (2, 2) (1, 1) ∉ legal_actions none exStateC3 := by
  refine ⟨by decide, ⟨by decide, by decide, by decide, by decide, by decide⟩,
    by decide, by decide⟩

/-- Claim C2 (amended): in a DEPLOY state, `MERGE(posA, posB)` is listed
by `legal_actions` (in one of the two argument orders) iff both cells are
occupied by the active player with identical type id, identical star < 3,
and the cells are orthogonally adjacent (`abs(Δrow)+abs(Δcol) = 1`) — not
hex-adjacent; and whenever the occupancy/type/star conditions hold,
`step` performs the merge even without any adjacency check (its guard
omits adjacency entirely). -/
theorem claim_C2_merge_rule (cat : Catalog) (s : MTEnv) (x y : ℤ × ℤ)
    (hd : s.done = false) (hb : s.in_battle = false)
    (hnd : (dkeys (playerOf s s.turn).units).Nodup)
    (hof : (if s.turn = 0 then s.p1 else s.p0).actions_left ≠ 0) :
    ((Action.MERGE x y ∈ legal_actions cat s ∨ Action.MERGE y x ∈ legal_actions cat s) ↔
      merge_ok (playerOf s s.turn) x y = true) ∧
    (∀ u1 u2, dlookup (playerOf s s.turn).units x = some u1 →
      dlookup (playerOf s s.turn).units y = some u2 →
      u1.card_id = u2.card_id → u1.star = u2.star → u1.star < 3 →
      (playerOf (stepAction cat s (Action.MERGE x y)) s.turn).units =
        dremove (dinsert (playerOf s s.turn).units x
          (Unit.from_card cat u1.card_id (u1.star + 1) x)) y) := by
  constructor
  · constructor
    · intro h
      rcases h with h | h
      · exact ((mem_legal_merge_iff cat s x y hd hb).mp h).2
      · exact (merge_ok_comm _ x y).mpr ((mem_legal_merge_iff cat s y x hd hb).mp h).2
    · intro hok
      have hxy := merge_ok_ne _ _ _ hok
      obtain ⟨u1, u2, h1, h2, -⟩ := (merge_ok_iff _ x y).mp hok
      have hx : x ∈ dkeys (playerOf s s.turn).units :=
        (dlookup_isSome_iff _ _).mp (by rw [h1]; rfl)
      have hy : y ∈ dkeys (playerOf s s.turn).units :=
        (dlookup_isSome_iff _ _).mp (by rw [h2]; rfl)
      rcases (pairsOf_mem_or _ hnd x y hxy).mpr ⟨hx, hy⟩ with hp | hp
      · exact Or.inl ((mem_legal_merge_iff cat s x y hd hb).mpr ⟨hp, hok⟩)
      · exact Or.inr ((mem_legal_merge_iff cat s y x hd hb).mpr
          ⟨hp, (merge_ok_comm _ x y).mp hok⟩)
  · intro u1 u2 h1 h2 hc hs3 hlt
    have hA : apply_action cat s (Action.MERGE x y) =
        setPlayer s s.turn
          { playerOf s s.turn with units := (dremove (dinsert (playerOf s s.turn).units x
              (Unit.from_card cat u1.card_id (u1.star + 1) x)) y) } := by
      simp only [apply_action, h1, h2]
      rw [if_pos ⟨hc, hs3, hlt⟩]
    rw [stepAction_eq cat s _ hd hb, hA]
    rw [playerOf_turn_handoff]
    have hS1turn : s.turn = (setPlayer s s.turn
        { playerOf s s.turn with units := (dremove (dinsert (playerOf s s.turn).units x
            (Unit.from_card cat u1.card_id (u1.star + 1) x)) y) }).turn :=
      (setPlayer_turn _ _ _).symm
    rw [maybe_battle_skip]
    · rw [recompute_flag_units cat _ _ s.turn hS1turn]
      rw [playerOf_setPlayer_same]
    · intro hcon
      by_cases h0 : s.turn = 0
      · have e1 := recompute_flag_p1_of_turn0 cat
          (setPlayer s s.turn
            { playerOf s s.turn with units := (dremove (dinsert (playerOf s s.turn).units x
                (Unit.from_card cat u1.card_id (u1.star + 1) x)) y) })
          (Action.MERGE x y) (by rw [setPlayer_turn]; exact h0)
        rw [e1] at hcon
        rw [h0] at hcon
        rw [setPlayer_p1_of_zero] at hcon
        simp only [h0, if_pos rfl] at hof
        exact hof hcon.2
      · have e1 := recompute_flag_p0_of_turn_ne cat
          (setPlayer s s.turn
            { playerOf s s.turn with units := (dremove (dinsert (playerOf s s.turn).units x
                (Unit.from_card cat u1.card_id (u1.star + 1) x)) y) })
          (Action.MERGE x y) (by rw [setPlayer_turn]; exact h0)
        rw [e1, setPlayer_p0_of_ne _ _ _ h0] at hcon
        rw [if_neg h0] at hof
        exact hof hcon.1
/-- Deploy state with two same-type star-1 units at the orthogonally
adjacent back-row cells (0,0) and (0,1). -/
def exStateC2w : MTEnv :=
  { round := 1
    turn := 0
    p0 := { elixir := 0, actions_left := 1, shop := [some 0, some 1, some 2], bench := [],
            units := [((0, 0), Unit.from_card none 0 1 (0, 0)),
                      ((0, 1), Unit.from_card none 0 1 (0, 1))],
            base_hp := 10 }
    p1 := { elixir := 4, actions_left := 1, shop := [some 0, some 0, some 0], bench := [],
            units := [], base_hp := 10 }
    in_battle := false
    done := false
    rng := [0, 0, 0, 0] }

/-- Claim C2 (witness): the amended merge rule on `exStateC2w`. -/
theorem claim_C2_witness :
    ((Action.MERGE (0, 0) (0, 1) ∈ legal_actions none exStateC2w ∨
      Action.MERGE (0, 1) (0, 0) ∈ legal_actions none exStateC2w) ↔
      merge_ok (playerOf exStateC2w exStateC2w.turn) (0, 0) (0, 1) = true) ∧
    (∀ u1 u2, dlookup (playerOf exStateC2w exStateC2w.turn).units (0, 0) = some u1 →
      dlookup (playerOf exStateC2w exStateC2w.turn).units (0, 1) = some u2 →
      u1.card_id = u2.card_id → u1.star = u2.star → u1.star < 3 →
      (playerOf (stepAction none exStateC2w (Action.MERGE (0, 0) (0, 1)))
          exStateC2w.turn).units =
        dremove (dinsert (playerOf exStateC2w exStateC2w.turn).units (0, 0)
          (Unit.from_card none u1.card_id (u1.star + 1) (0, 0))) (0, 1)) :=
  claim_C2_merge_rule none exStateC2w (0, 0) (0, 1) rfl rfl (by decide) (by decide)

/-! ## Dict length lemmas and further step helpers (claim C9) -/

theorem dlookup_dremove_self {β : Type} (d : List ((ℤ × ℤ) × β)) (k : ℤ × ℤ) :
    dlookup (dremove d k) k = none := by
  induction d with
  | nil => rfl
  | cons kv rest ih =>
    obtain ⟨k0, v0⟩ := kv
    by_cases h : k0 = k
    · simpa [dremove, List.filter_cons, h] using ih
    · simpa [dremove, List.filter_cons, h, dlookup] using ih

theorem dremove_length {β : Type} (d : List ((ℤ × ℤ) × β)) (k : ℤ × ℤ) (v : β)
    (hnd : (dkeys d).Nodup) (h : dlookup d k = some v) :
    (dremove d k).length + 1 = d.length := by
  induction d with
  | nil => simp [dlookup] at h
  | cons kv rest ih =>
    obtain ⟨k0, v0⟩ := kv
    have hnd2 : (dkeys rest).Nodup := by
      simpa [dkeys] using (List.nodup_cons.mp (by simpa [dkeys] using hnd)).2
    by_cases hk : k0 = k
    · have hkn : k0 ∉ dkeys rest := (List.nodup_cons.mp (by simpa [dkeys] using hnd)).1
      have hrest : dremove rest k = rest := by
        apply List.filter_eq_self.mpr
        intro x hx
        have hxk : x.1 ∈ dkeys rest := List.mem_map.mpr ⟨x, hx, rfl⟩
        simp only [decide_eq_true_eq]
        intro hcon
        rw [hcon] at hxk
        rw [hk] at hkn
        exact hkn hxk
      have hrm : dremove ((k0, v0) :: rest) k = dremove rest k := by
        simp [dremove, List.filter_cons, hk]
      rw [hrm, hrest]
      simp
    · have h2 : dlookup rest k = some v := by simpa [dlookup, hk] using h
      have ih2 := ih hnd2 h2
      have hrm : dremove ((k0, v0) :: rest) k = (k0, v0) :: dremove rest k := by
        simp [dremove, List.filter_cons, hk]
      rw [hrm]
      simp only [List.length_cons]
      omega

theorem dinsert_length_absent {β : Type} (d : List ((ℤ × ℤ) × β)) (k : ℤ × ℤ) (v : β)
    (h : dlookup d k = none) :
    (dinsert d k v).length = d.length + 1 := by
  induction d with
  | nil => rfl
  | cons kv rest ih =>
    obtain ⟨k0, v0⟩ := kv
    by_cases hk : k0 = k
    · simp [dlookup, hk] at h
    · have h2 : dlookup rest k = none := by simpa [dlookup, hk] using h
      simp [dinsert, hk, ih h2]

/-- The opponent of the active player. -/
def opponentOf (s : MTEnv) (who : ℤ) : PlayerState := if who = 0 then s.p1 else s.p0

theorem setPlayer_setPlayer (s : MTEnv) (who : ℤ) (pl1 pl2 : PlayerState) :
    setPlayer (setPlayer s who pl1) who pl2 = setPlayer s who pl2 := by
  by_cases h : who = 0 <;> simp [setPlayer, h]

theorem setPlayer_done (s : MTEnv) (who : ℤ) (pl : PlayerState) :
    (setPlayer s who pl).done = s.done := by
  by_cases h : who = 0 <;> simp [setPlayer, h]

theorem setPlayer_in_battle (s : MTEnv) (who : ℤ) (pl : PlayerState) :
    (setPlayer s who pl).in_battle = s.in_battle := by
  by_cases h : who = 0 <;> simp [setPlayer, h]

theorem setPlayer_opponentOf (s : MTEnv) (who : ℤ) (pl : PlayerState) :
    opponentOf (setPlayer s who pl) who = opponentOf s who := by
  by_cases h : who = 0 <;> simp [setPlayer, opponentOf, h]

theorem mem_colsRange (c : ℤ) : c ∈ colsRange ↔ 0 ≤ c ∧ c < BOARD_COLS := by
  have hc : colsRange = [0, 1, 2, 3, 4] := by rfl
  rw [hc]
  unfold BOARD_COLS
  simp only [List.mem_cons, List.not_mem_nil, or_false]
  omega

theorem mem_empty_back_cols_iff (s : MTEnv) (who c : ℤ) :
    c ∈ empty_back_cols s who ↔ c ∈ colsRange ∧
      (dlookup (playerOf s who).units (back_row who, c)).isNone = true ∧
      (dlookup (opponentOf s who).units (back_row who, c)).isNone = true := by
  by_cases h : who = 0 <;>
    simp [empty_back_cols, playerOf, opponentOf, h, List.mem_filter] <;> tauto

theorem has_empty_of_col (s : MTEnv) (who c : ℤ) (h : c ∈ empty_back_cols s who) :
    has_empty_back_cell s who = true := by
  rcases List.mem_filter.mp h with ⟨hc, hcond⟩
  simp only [decide_eq_true_eq] at hcond
  refine List.any_eq_true.mpr ⟨c, hc, ?_⟩
  simp [hcond.1, hcond.2]

theorem maybe_battle_skip_active (cat : Catalog) (t : MTEnv)
    (h : (playerOf t t.turn).actions_left ≠ 0) : maybe_battle cat t = t := by
  apply maybe_battle_skip
  intro hcon
  by_cases h0 : t.turn = 0
  · rw [playerOf, if_pos h0] at h
    exact h hcon.1
  · rw [playerOf, if_neg h0] at h
    exact h hcon.2

theorem turn_handoff_skip_active (t : MTEnv)
    (h : (playerOf t t.turn).actions_left ≠ 0) : turn_handoff t = t := by
  unfold turn_handoff
  split_ifs with h1 h2 h3 <;> try rfl
  · exfalso
    rw [playerOf, if_pos h2.1] at h
    exact h h2.2.1
  · exfalso
    have hne0 : t.turn ≠ 0 := by rw [h3.1]; omega
    rw [playerOf, if_neg hne0] at h
    exact h h3.2.1

/-- A step whose action branch replaced the active player's state and
leaves the player able to act keeps that replacement and only sets the
pass flag to 1 (no battle, no handoff). -/
theorem step_active_update (cat : Catalog) (s s2 : MTEnv) (a : Action) (pl1 : PlayerState)
    (hd : s.done = false) (hb : s.in_battle = false)
    (ht2 : s2.turn = s.turn)
    (hA : apply_action cat s a = setPlayer s2 s.turn pl1)
    (hne : a ≠ Action.END)
    (hcan : can_any_action cat (setPlayer s2 s.turn pl1) s.turn = true) :
    stepAction cat s a = setPlayer s2 s.turn { pl1 with actions_left := 1 } := by
  rw [stepAction_eq _ _ _ hd hb, hA]
  have htt : (setPlayer s2 s.turn pl1).turn = s.turn := by rw [setPlayer_turn]; exact ht2
  have h1 : recompute_flag cat (setPlayer s2 s.turn pl1) a =
      setPlayer s2 s.turn { pl1 with actions_left := 1 } := by
    unfold recompute_flag
    dsimp only
    rw [htt, playerOf_setPlayer_same, if_neg hne, hcan]
    rw [if_pos rfl, setPlayer_setPlayer]
  rw [h1]
  have hact : (playerOf (setPlayer s2 s.turn { pl1 with actions_left := 1 })
      (setPlayer s2 s.turn { pl1 with actions_left := 1 }).turn).actions_left ≠ 0 := by
    rw [setPlayer_turn, ht2, playerOf_setPlayer_same]
    simp
  rw [maybe_battle_skip_active _ _ hact, turn_handoff_skip_active _ hact]

/-- A step whose action branch replaced the active player's state leaves
the active player's board as the replacement put it, provided the
opponent can still act (so no battle can trigger). -/
theorem step_units_of_active_update (cat : Catalog) (s s2 : MTEnv) (a : Action)
    (pl1 : PlayerState)
    (hd : s.done = false) (hb : s.in_battle = false)
    (ht2 : s2.turn = s.turn)
    (hA : apply_action cat s a = setPlayer s2 s.turn pl1)
    (hof : (opponentOf s2 s.turn).actions_left ≠ 0) :
    (playerOf (stepAction cat s a) s.turn).units = pl1.units := by
  rw [stepAction_eq _ _ _ hd hb, hA]
  rw [playerOf_turn_handoff]
  rw [maybe_battle_skip]
  · rw [recompute_flag_units cat _ a s.turn (by rw [setPlayer_turn, ht2])]
    rw [playerOf_setPlayer_same]
  · intro hcon
    by_cases h0 : s.turn = 0
    · have e1 := recompute_flag_p1_of_turn0 cat (setPlayer s2 s.turn pl1) a
        (by rw [setPlayer_turn, ht2, h0])
      rw [e1] at hcon
      rw [h0] at hcon
      rw [setPlayer_p1_of_zero] at hcon
      rw [opponentOf, if_pos h0] at hof
      exact hof hcon.2
    · have e1 := recompute_flag_p0_of_turn_ne cat (setPlayer s2 s.turn pl1) a
        (by rw [setPlayer_turn, ht2]; exact h0)
      rw [e1, setPlayer_p0_of_ne _ _ _ h0] at hcon
      rw [opponentOf, if_neg h0] at hof
      exact hof hcon.1

theorem setPlayer_round (s : MTEnv) (who : ℤ) (pl : PlayerState) :
    (setPlayer s who pl).round = s.round := by
  by_cases h : who = 0 <;> simp [setPlayer, h]

theorem both_lookups (t : MTEnv) (who : ℤ) (pos : ℤ × ℤ)
    (hA : (dlookup (playerOf t who).units pos).isNone = true)
    (hB : (dlookup (opponentOf t who).units pos).isNone = true) :
    (dlookup t.p0.units pos).isNone = true ∧ (dlookup t.p1.units pos).isNone = true := by
  by_cases h : who = 0
  · simp only [playerOf, opponentOf, if_pos h] at hA hB
    exact ⟨hA, hB⟩
  · simp only [playerOf, opponentOf, if_neg h] at hA hB
    exact ⟨hB, hA⟩

/-- A legal `BUY_PLACE` into a free back-row cell raises the active
player's board count by exactly one (no battle triggers while the opponent
can still act). -/
theorem buy_step_count (cat : Catalog) (t : MTEnv) (si col cid : ℤ)
    (hd : t.done = false) (hb : t.in_battle = false)
    (hsi : 0 ≤ si ∧ si < ((playerOf t t.turn).shop.length : ℤ))
    (hslot : (playerOf t t.turn).shop.getD si.toNat none = some cid)
    (helx : cost_of cat cid ≤ (playerOf t t.turn).elixir)
    (hcap : (board_count t t.turn : ℤ) < unit_cap_for_round t.round)
    (hcol : 0 ≤ col ∧ col < BOARD_COLS)
    (hlkA : dlookup (playerOf t t.turn).units (back_row t.turn, col) = none)
    (hlkB : dlookup (opponentOf t t.turn).units (back_row t.turn, col) = none)
    (hof : (opponentOf t t.turn).actions_left ≠ 0) :
    board_count (stepAction cat t (Action.BUY_PLACE si col)) t.turn =
      board_count t t.turn + 1 := by
  have hcol' : col ∈ empty_back_cols t t.turn :=
    (mem_empty_back_cols_iff t t.turn col).mpr
      ⟨(mem_colsRange col).mpr hcol, by rw [hlkA]; rfl, by rw [hlkB]; rfl⟩
  have hcb : can_buy_from_slot cat t t.turn si = true :=
    (can_buy_iff cat t t.turn si).mpr
      ⟨hsi, ⟨cid, hslot, helx⟩, hcap, has_empty_of_col t t.turn col hcol'⟩
  have hbuyA : apply_action cat t (Action.BUY_PLACE si col) =
      setPlayer { t with rng := t.rng.tail } t.turn
        { playerOf t t.turn with
          elixir := (playerOf t t.turn).elixir - cost_of cat cid
          units := (dinsert (playerOf t t.turn).units (back_row t.turn, col)
            (Unit.from_card cat cid 1 (back_row t.turn, col)))
          shop := setAt (playerOf t t.turn).shop si.toNat (some (t.rng.headD 0)) } := by
    unfold apply_action
    dsimp only
    rw [if_pos ⟨hcb, hcol'⟩]
    rw [if_pos (both_lookups t t.turn _ (by rw [hlkA]; rfl) (by rw [hlkB]; rfl))]
    rw [if_pos hsi.1, hslot]
    rfl
  have hunits := step_units_of_active_update cat t { t with rng := t.rng.tail }
    (Action.BUY_PLACE si col) _ hd hb rfl hbuyA (by exact hof)
  unfold board_count
  rw [hunits]
  exact dinsert_length_absent _ _ _ hlkA

/-! ## Claim C9 -/

/-- Claim C9 (confirmed): in a DEPLOY state, selling the unit at a
back-row cell and then buying the same card id back into the same cell —
assuming the shop offers that id, the refunded elixir covers the price,
the opponent still has actions (so the deploy phase does not end
mid-sequence), and the cell is not occupied by the opponent — restores
the player's board unit count to its value before the SELL. -/
theorem claim_C9_sell_buy_roundtrip (cat : Catalog) (s : MTEnv) (col si cid : ℤ) (u : Unit)
    (hd : s.done = false) (hb : s.in_battle = false)
    (hnd : (dkeys (playerOf s s.turn).units).Nodup)
    (hpos : dlookup (playerOf s s.turn).units (back_row s.turn, col) = some u)
    (hopp : dlookup (opponentOf s s.turn).units (back_row s.turn, col) = none)
    (hcol : 0 ≤ col ∧ col < BOARD_COLS)
    (hsi : 0 ≤ si ∧ si < ((playerOf s s.turn).shop.length : ℤ))
    (hslot : (playerOf s s.turn).shop.getD si.toNat none = some cid)
    (hcid : cid = u.card_id)
    (helx : cost_of cat cid ≤ (playerOf s s.turn).elixir + SELL_REFUND)
    (hcap : (board_count s s.turn : ℤ) ≤ unit_cap_for_round s.round)
    (hof : (opponentOf s s.turn).actions_left ≠ 0) :
    board_count (stepAction cat (stepAction cat s (Action.SELL (back_row s.turn, col)))
      (Action.BUY_PLACE si col)) s.turn = board_count s s.turn := by
  have hcnt := dremove_length (playerOf s s.turn).units (back_row s.turn, col) u hnd hpos
  have hsellA : apply_action cat s (Action.SELL (back_row s.turn, col)) =
      setPlayer s s.turn
        { playerOf s s.turn with
          units := (dremove (playerOf s s.turn).units (back_row s.turn, col))
          elixir := (playerOf s s.turn).elixir + SELL_REFUND } := by
    unfold apply_action
    dsimp only
    rw [hpos]
    rfl
  have hbuy2 : ∀ pl2 : PlayerState, pl2.shop = (playerOf s s.turn).shop →
      pl2.elixir = (playerOf s s.turn).elixir + SELL_REFUND →
      pl2.units = dremove (playerOf s s.turn).units (back_row s.turn, col) →
      can_buy_from_slot cat (setPlayer s s.turn pl2) s.turn si = true := by
    intro pl2 hsh hel hun
    apply (can_buy_iff _ _ _ _).mpr
    refine ⟨?_, ?_, ?_, ?_⟩
    · rw [playerOf_setPlayer_same, hsh]
      exact hsi
    · rw [playerOf_setPlayer_same, hsh, hel]
      exact ⟨cid, hslot, helx⟩
    · have hbc : board_count (setPlayer s s.turn pl2) s.turn = pl2.units.length := by
        unfold board_count
        rw [playerOf_setPlayer_same]
      rw [hbc, hun, setPlayer_round]
      have hn : (board_count s s.turn : ℤ) = ((playerOf s s.turn).units.length : ℤ) := rfl
      omega
    · apply has_empty_of_col _ _ col
      apply (mem_empty_back_cols_iff _ _ _).mpr
      refine ⟨(mem_colsRange col).mpr hcol, ?_, ?_⟩
      · rw [playerOf_setPlayer_same, hun, dlookup_dremove_self]
        rfl
      · rw [setPlayer_opponentOf, hopp]
        rfl
  have hcan1 : can_any_action cat (setPlayer s s.turn
      { playerOf s s.turn with
        units := (dremove (playerOf s s.turn).units (back_row s.turn, col))
        elixir := (playerOf s s.turn).elixir + SELL_REFUND }) s.turn = true := by
    unfold can_any_action
    dsimp only
    rw [playerOf_setPlayer_same]
    have hA : (List.range ({ playerOf s s.turn with
        units := (dremove (playerOf s s.turn).units (back_row s.turn, col))
        elixir := (playerOf s s.turn).elixir + SELL_REFUND } : PlayerState).shop.length).any
        (fun si2 => can_buy_from_slot cat (setPlayer s s.turn
          { playerOf s s.turn with
            units := (dremove (playerOf s s.turn).units (back_row s.turn, col))
            elixir := (playerOf s s.turn).elixir + SELL_REFUND }) s.turn (si2 : ℤ)) = true := by
      apply List.any_eq_true.mpr
      have hsh : ({ playerOf s s.turn with
          units := (dremove (playerOf s s.turn).units (back_row s.turn, col))
          elixir := (playerOf s s.turn).elixir + SELL_REFUND } : PlayerState).shop =
        (playerOf s s.turn).shop := rfl
      refine ⟨si.toNat, List.mem_range.mpr (by rw [hsh]; omega), ?_⟩
      have hcast : ((si.toNat : ℤ)) = si := by omega
      rw [hcast]
      exact hbuy2 _ rfl rfl rfl
    rw [hA]
    simp
  have hstep1 : stepAction cat s (Action.SELL (back_row s.turn, col)) =
      setPlayer s s.turn
        { playerOf s s.turn with
          units := (dremove (playerOf s s.turn).units (back_row s.turn, col))
          elixir := (playerOf s s.turn).elixir + SELL_REFUND
          actions_left := 1 } := by
    have := step_active_update cat s s (Action.SELL (back_row s.turn, col))
      { playerOf s s.turn with
        units := (dremove (playerOf s s.turn).units (back_row s.turn, col))
        elixir := (playerOf s s.turn).elixir + SELL_REFUND }
      hd hb rfl hsellA (by intro hcon; cases hcon) hcan1
    exact this
  rw [hstep1]
  set t := setPlayer s s.turn
    { playerOf s s.turn with
      units := (dremove (playerOf s s.turn).units (back_row s.turn, col))
      elixir := (playerOf s s.turn).elixir + SELL_REFUND
      actions_left := 1 } with htdef
  have htt : t.turn = s.turn := setPlayer_turn _ _ _
  have htP : playerOf t t.turn =
      { playerOf s s.turn with
        units := (dremove (playerOf s s.turn).units (back_row s.turn, col))
        elixir := (playerOf s s.turn).elixir + SELL_REFUND
        actions_left := 1 } := by
    rw [htt, htdef, playerOf_setPlayer_same]
  have hfinal := buy_step_count cat t si col cid
    (by rw [htdef, setPlayer_done]; exact hd)
    (by rw [htdef, setPlayer_in_battle]; exact hb)
    (by rw [htP]; exact hsi)
    (by rw [htP]; exact hslot)
    (by rw [htP]; exact helx)
    (by
      have hbc : board_count t t.turn =
          (dremove (playerOf s s.turn).units (back_row s.turn, col)).length := by
        unfold board_count
        rw [htP]
      rw [hbc, htdef, setPlayer_round]
      have hn : board_count s s.turn = (playerOf s s.turn).units.length := rfl
      omega)
    hcol
    (by rw [htP, htt]; exact dlookup_dremove_self _ _)
    (by rw [htt, htdef, setPlayer_opponentOf]; exact hopp)
    (by rw [htt, htdef, setPlayer_opponentOf]; exact hof)
  rw [htt] at hfinal
  rw [hfinal]
  have hbc2 : board_count t s.turn =
      (dremove (playerOf s s.turn).units (back_row s.turn, col)).length := by
    unfold board_count
    rw [htdef, playerOf_setPlayer_same]
  rw [hbc2]
  have hn : board_count s s.turn = (playerOf s s.turn).units.length := rfl
  omega

/-- Concrete deploy state for exercising the sell/buy round trip: player 0
owns one unit of card 0 on its back row, the shop offers card 0 in slot 0,
and the opponent still has an action left. -/
def exStateC9 : MTEnv :=
  { round := 1, turn := 0
    p0 := { elixir := 1, actions_left := 2, shop := [some 0, none, none], bench := []
            units := [((0, 2),
              { card_id := 0, star := 1, pos := (0, 2), hp := 1, dps := 1, cooldown := 0
                move_target := none, reserved := none })]
            base_hp := 10 }
    p1 := { elixir := 4, actions_left := 1, shop := [none, none, none], bench := []
            units := [], base_hp := 10 }
    in_battle := false, done := false, rng := [] }

theorem claim_C9_witness :
    board_count (stepAction none (stepAction none exStateC9
        (Action.SELL (back_row exStateC9.turn, 2)))
      (Action.BUY_PLACE 0 2)) exStateC9.turn = board_count exStateC9 exStateC9.turn :=
  claim_C9_sell_buy_roundtrip none exStateC9 2 0 0
    { card_id := 0, star := 1, pos := (0, 2), hp := 1, dps := 1, cooldown := 0
      move_target := none, reserved := none }
    (by decide) (by decide) (by decide) (by decide) (by decide) (by decide)
    (by decide) (by decide) (by decide) (by decide) (by decide) (by decide)

/-! ## Claim C8: alive counts across `BattleEngine.step`

Every hp mutation in the engine goes through `dmgUnit`, and every call
site either targets a unit that is alive in the relevant alive snapshot
(projectile passes) or a unit returned by `nearest_enemy` (instant
damage), which only ever picks alive targets.  All other stages only
touch cooldowns, positions and move targets.  So a unit that is alive
after `step` was already alive before it, pointwise at its roster index,
which makes both sides' alive counts non-increasing. -/

theorem updateAt_length {α : Type} : ∀ (l : List α) (i : ℕ) (f : α → α),
    (updateAt l i f).length = l.length
  | [], _, _ => rfl
  | _ :: xs, 0, f => rfl
  | x :: xs, n + 1, f => by
    simp only [updateAt, List.length_cons, updateAt_length xs n f]

theorem updateAt_get_ne {α : Type} : ∀ (l : List α) (i : ℕ) (f : α → α) (j : ℕ),
    j ≠ i → (updateAt l i f).get? j = l.get? j
  | [], _, _, _, _ => rfl
  | x :: xs, 0, f, 0, h => absurd rfl h
  | x :: xs, 0, f, j + 1, _ => rfl
  | x :: xs, n + 1, f, 0, _ => rfl
  | x :: xs, n + 1, f, j + 1, h =>
    updateAt_get_ne xs n f j (fun hc => h (by rw [hc]))

theorem updateAt_get_self {α : Type} : ∀ (l : List α) (i : ℕ) (f : α → α),
    (updateAt l i f).get? i = (l.get? i).map f
  | [], _, _ => rfl
  | x :: xs, 0, f => rfl
  | x :: xs, n + 1, f => updateAt_get_self xs n f

/-- Pointwise roster relation: same length, same owner at every index, and
any unit alive in the second roster was already alive in the first. -/
def deadPres (l1 l2 : List (ℤ × Unit)) : Prop :=
  l2.length = l1.length ∧ ∀ j : ℕ,
    ((l2.get? j).map Prod.fst = (l1.get? j).map Prod.fst) ∧
    ∀ a b, l1.get? j = some a → l2.get? j = some b →
      b.2.is_alive = true → a.2.is_alive = true

theorem deadPres_refl (l : List (ℤ × Unit)) : deadPres l l :=
  ⟨rfl, fun _ => ⟨rfl, fun a b ha hb h => by
    rw [ha] at hb
    cases hb
    exact h⟩⟩

theorem deadPres_trans {l1 l2 l3 : List (ℤ × Unit)}
    (h12 : deadPres l1 l2) (h23 : deadPres l2 l3) : deadPres l1 l3 := by
  refine ⟨h23.1.trans h12.1, fun j => ⟨(h23.2 j).1.trans (h12.2 j).1, ?_⟩⟩
  intro a c ha hc hcAlive
  have hown : (l2.get? j).map Prod.fst = some a.1 := by
    rw [(h12.2 j).1, ha]
    rfl
  obtain ⟨b, hb, _⟩ := Option.map_eq_some'.mp hown
  exact (h12.2 j).2 a b ha hb ((h23.2 j).2 b c hb hc hcAlive)

/-- Alive counts are monotone along `deadPres`. -/
theorem deadPres_countP (w : ℤ) : ∀ (l1 l2 : List (ℤ × Unit)), deadPres l1 l2 →
    l2.countP (fun ou => decide (ou.1 = w) && ou.2.is_alive) ≤
      l1.countP (fun ou => decide (ou.1 = w) && ou.2.is_alive)
  | [], l2, h => by
    have : l2 = [] := List.length_eq_zero.mp h.1
    rw [this]
  | a :: t1, [], h => by
    exact absurd h.1 (by simp)
  | a :: t1, b :: t2, h => by
    have htail : deadPres t1 t2 := ⟨by have := h.1; simpa using this, fun j => (h.2 (j + 1))⟩
    have hih := deadPres_countP w t1 t2 htail
    have hhead := h.2 0
    have hown : b.1 = a.1 := by
      have h0 := hhead.1
      simp at h0
      exact h0
    have halive : b.2.is_alive = true → a.2.is_alive = true :=
      hhead.2 a b rfl rfl
    simp only [List.countP_cons]
    by_cases hb : (decide (b.1 = w) && b.2.is_alive) = true
    · have hba : (decide (a.1 = w) && a.2.is_alive) = true := by
        simp only [Bool.and_eq_true, decide_eq_true_eq] at hb ⊢
        exact ⟨hown ▸ hb.1, halive hb.2⟩
      rw [if_pos hb, if_pos hba]
      omega
    · rw [if_neg hb]
      split <;> omega

/-- In the projectile inner loop, a roster entry changes only when the
pass's alive snapshot marks that index alive. -/
def maskOk (mask : List Bool) (u0 u : List (ℤ × Unit)) : Prop :=
  u.length = u0.length ∧ ∀ j : ℕ,
    ((u.get? j).map Prod.fst = (u0.get? j).map Prod.fst) ∧
    (u.get? j = u0.get? j ∨ mask.getD j false = true)

theorem maskOk_updateAt (mask : List Bool) (u0 u : List (ℤ × Unit)) (t : ℕ)
    (f : ℤ × Unit → ℤ × Unit) (hf : ∀ x, (f x).1 = x.1)
    (hm : mask.getD t false = true) (h : maskOk mask u0 u) :
    maskOk mask u0 (updateAt u t f) := by
  refine ⟨(updateAt_length u t f).trans h.1, fun j => ?_⟩
  by_cases hj : j = t
  · subst hj
    refine ⟨?_, Or.inr hm⟩
    rw [updateAt_get_self, ← (h.2 j).1, Option.map_map]
    cases u.get? j with
    | none => rfl
    | some x => simp [hf x]
  · rw [updateAt_get_ne u t f j hj]
    exact h.2 j

theorem projPassGo_maskOk (mask : List Bool) (dt : ℚ) :
    ∀ (ps : List Projectile) (u0 u : List (ℤ × Unit)),
    maskOk mask u0 u → maskOk mask u0 (projPassGo mask dt u ps).1
  | [], u0, u, h => h
  | p :: rest, u0, u, h => by
    unfold projPassGo
    dsimp only
    split
    · split
      · rename_i hcond
        exact projPassGo_maskOk mask dt rest u0 _
          (maskOk_updateAt mask u0 u p.target_idx.toNat _ (fun x => rfl) hcond.2.2 h)
      · exact projPassGo_maskOk mask dt rest u0 u h
    · exact projPassGo_maskOk mask dt rest u0 u h

theorem getD_map_alive : ∀ (u0 : List (ℤ × Unit)) (j : ℕ),
    (u0.map (fun ou => ou.2.is_alive)).getD j false = true →
    ∃ a, u0.get? j = some a ∧ a.2.is_alive = true
  | [], j, h => by simp [List.getD] at h
  | x :: t, 0, h => ⟨x, rfl, by simpa [List.getD] using h⟩
  | x :: t, j + 1, h => getD_map_alive t j (by simpa [List.getD] using h)

/-- A projectile pass only ever damages units alive at pass start, so it
preserves `deadPres` from its input roster. -/
theorem projPass_deadPres (dt : ℚ) (u : List (ℤ × Unit)) (ps : List Projectile) :
    deadPres u (projPass dt u ps).1 := by
  unfold projPass
  have h0 : maskOk (u.map (fun ou => ou.2.is_alive)) u u :=
    ⟨rfl, fun j => ⟨rfl, Or.inl rfl⟩⟩
  have hm := projPassGo_maskOk (u.map (fun ou => ou.2.is_alive)) dt ps u u h0
  refine ⟨hm.1, fun j => ⟨(hm.2 j).1, ?_⟩⟩
  intro a b ha hb hAlive
  rcases (hm.2 j).2 with hsame | hmask
  · rw [hsame, ha] at hb
    cases hb
    exact hAlive
  · obtain ⟨a2, ha2, ha2Alive⟩ := getD_map_alive u j hmask
    rw [ha] at ha2
    cases ha2
    exact ha2Alive

/-- Pointwise roster relation preserved by the movement stage: same length
and, at every index, the same owner and the same hp. -/
def hpPres (l1 l2 : List (ℤ × Unit)) : Prop :=
  l2.length = l1.length ∧ ∀ j : ℕ,
    (l2.get? j).map (fun ou => (ou.1, ou.2.hp)) =
      (l1.get? j).map (fun ou => (ou.1, ou.2.hp))

theorem hpPres_refl (l : List (ℤ × Unit)) : hpPres l l := ⟨rfl, fun _ => rfl⟩

theorem hpPres_trans {l1 l2 l3 : List (ℤ × Unit)}
    (h12 : hpPres l1 l2) (h23 : hpPres l2 l3) : hpPres l1 l3 :=
  ⟨h23.1.trans h12.1, fun j => (h23.2 j).trans (h12.2 j)⟩

theorem hpPres_deadPres (l1 l2 : List (ℤ × Unit)) (h : hpPres l1 l2) :
    deadPres l1 l2 := by
  refine ⟨h.1, fun j => ⟨?_, ?_⟩⟩
  · have h2 := congrArg (Option.map Prod.fst) (h.2 j)
    simpa [Option.map_map, Function.comp] using h2
  · intro a b ha hb hAlive
    have h2 := h.2 j
    rw [ha, hb] at h2
    simp only [Option.map_some', Option.some.injEq, Prod.mk.injEq] at h2
    unfold Unit.is_alive at hAlive ⊢
    rw [← h2.2]
    exact hAlive

theorem advance_move_hp (cat : Catalog) (u : Unit) (dt : ℚ) :
    (advance_move cat u dt).1.hp = u.hp := by
  unfold advance_move
  cases hmt : u.move_target with
  | none => rfl
  | some tgt =>
    dsimp only
    split_ifs <;> rfl

theorem hpPres_updateAt (l : List (ℤ × Unit)) (i : ℕ) (owner : ℤ) (ui0 u' : Unit)
    (hg : l.get? i = some (owner, ui0)) (hhp : u'.hp = ui0.hp) :
    hpPres l (updateAt l i (fun _ => (owner, u'))) := by
  refine ⟨updateAt_length l i _, fun j => ?_⟩
  by_cases hj : j = i
  · subst hj
    rw [updateAt_get_self, hg]
    simp [hhp]
  · rw [updateAt_get_ne l i _ j hj]

theorem performStep_hpPres (cat : Catalog) (dt : ℚ) (blockedL : List ℕ)
    (intents : List (Option (ℤ × ℤ))) (st : List (ℤ × Unit) × List (ℤ × ℤ)) (i : ℕ) :
    hpPres st.1 (performStep cat dt blockedL intents st i).1 := by
  unfold performStep
  cases hg : st.1.get? i with
  | none => exact hpPres_refl st.1
  | some p =>
    obtain ⟨owner, ui0⟩ := p
    dsimp only
    repeat' split
    all_goals dsimp only
    all_goals try exact hpPres_refl st.1
    all_goals apply hpPres_updateAt st.1 i owner ui0 _ hg
    all_goals simp [advance_move_hp]

theorem performFold_hpPres (cat : Catalog) (dt : ℚ) (blockedL : List ℕ)
    (intents : List (Option (ℤ × ℤ))) :
    ∀ (idxs : List ℕ) (st : List (ℤ × Unit) × List (ℤ × ℤ)),
    hpPres st.1 ((idxs.foldl (performStep cat dt blockedL intents) st).1)
  | [], st => hpPres_refl st.1
  | i :: rest, st =>
    hpPres_trans (performStep_hpPres cat dt blockedL intents st i)
      (performFold_hpPres cat dt blockedL intents rest _)

/-- The movement stage never touches owners or hit points. -/
theorem moveStage_deadPres (cat : Catalog) (dt : ℚ) (units1 : List (ℤ × Unit)) :
    deadPres units1 (moveStage cat dt units1) := by
  unfold moveStage performMoves
  dsimp only
  exact hpPres_deadPres _ _ (performFold_hpPres cat dt _ _ _ (units1, _))

theorem mem_enumFrom_get {α : Type} : ∀ (l : List α) (n j : ℕ) (x : α),
    (j, x) ∈ l.enumFrom n → n ≤ j ∧ l.get? (j - n) = some x := by
  intro l
  induction l with
  | nil => intro n j x h; simp [List.enumFrom] at h
  | cons y t ih =>
    intro n j x h
    rcases List.mem_cons.mp h with h0 | h1
    · injection h0 with hj hx
      subst hj
      subst hx
      exact ⟨le_refl _, by simp⟩
    · obtain ⟨hle, hget⟩ := ih (n + 1) j x h1
      refine ⟨by omega, ?_⟩
      have hidx : j - n = (j - (n + 1)) + 1 := by omega
      rw [hidx]
      exact hget

theorem mem_enum_get {α : Type} (l : List α) (j : ℕ) (x : α)
    (h : (j, x) ∈ l.enum) : l.get? j = some x := by
  have := mem_enumFrom_get l 0 j x h
  simpa using this.2

/-- A fold that only ever replaces its accumulator by the index of an alive
roster entry can only return the index of an alive roster entry. -/
theorem foldl_pick_inv {K : Type} (units : List (ℤ × Unit))
    (g : Option (ℕ × K) → ℕ × (ℤ × Unit) → Option (ℕ × K))
    (hgstep : ∀ acc jp, g acc jp = acc ∨
      (∃ k, g acc jp = some (jp.1, k)) ∧ jp.2.2.is_alive = true) :
    ∀ (l : List (ℕ × (ℤ × Unit))) (acc : Option (ℕ × K)),
    (∀ x ∈ l, units.get? x.1 = some x.2) →
    (∀ jk, acc = some jk → ∃ p, units.get? jk.1 = some p ∧ p.2.is_alive = true) →
    ∀ jk, l.foldl g acc = some jk → ∃ p, units.get? jk.1 = some p ∧ p.2.is_alive = true
  | [], acc, _, hacc, jk, hf => hacc jk hf
  | x :: rest, acc, hmem, hacc, jk, hf => by
    apply foldl_pick_inv units g hgstep rest (g acc x)
      (fun y hy => hmem y (List.mem_cons_of_mem x hy)) ?_ jk hf
    intro jk2 hjk2
    rcases hgstep acc x with heq | ⟨⟨k, hk⟩, halive⟩
    · exact hacc jk2 (heq ▸ hjk2)
    · rw [hk] at hjk2
      injection hjk2 with h2
      subst h2
      exact ⟨x.2, hmem x (List.mem_cons_self x rest), halive⟩

/-- `nearest_enemy` only ever returns the index of an alive unit. -/
theorem nearest_enemy_alive (units : List (ℤ × Unit)) (idx t : ℕ)
    (h : nearest_enemy units idx = some t) :
    ∃ p, units.get? t = some p ∧ p.2.is_alive = true := by
  unfold nearest_enemy at h
  cases hg : units.get? idx with
  | none =>
    rw [hg] at h
    simp at h
  | some oi =>
    obtain ⟨owner_i, ui⟩ := oi
    rw [hg] at h
    dsimp only at h
    obtain ⟨tk, hfold, hfst⟩ := Option.map_eq_some'.mp h
    have hmemE : ∀ x ∈ units.enum, units.get? x.1 = some x.2 :=
      fun x hx => mem_enum_get units x.1 x.2 hx
    have hinv := foldl_pick_inv units _ ?_ units.enum none hmemE
      (fun _ hjk => by exact absurd hjk (by simp)) tk hfold
    · rw [← hfst]
      exact hinv
    · intro acc jp
      dsimp only
      split
      · exact Or.inl rfl
      · rename_i hc
        have halive : jp.2.2.is_alive = true := by
          cases hA : jp.2.2.is_alive
          · exact absurd (Or.inr hA) hc
          · rfl
        cases acc with
        | none => exact Or.inr ⟨⟨_, rfl⟩, halive⟩
        | some bk =>
          dsimp only
          split
          · exact Or.inr ⟨⟨_, rfl⟩, halive⟩
          · exact Or.inl rfl

theorem deadPres_updateAt (l : List (ℤ × Unit)) (i : ℕ) (f : ℤ × Unit → ℤ × Unit)
    (hown : ∀ x, (f x).1 = x.1)
    (halive : ∀ x, l.get? i = some x → (f x).2.is_alive = true → x.2.is_alive = true) :
    deadPres l (updateAt l i f) := by
  refine ⟨updateAt_length l i f, fun j => ?_⟩
  by_cases hj : j = i
  · subst hj
    refine ⟨?_, ?_⟩
    · rw [updateAt_get_self, Option.map_map]
      cases l.get? j with
      | none => rfl
      | some x => simp [hown x]
    · intro a b ha hb hB
      rw [updateAt_get_self, ha] at hb
      simp only [Option.map_some'] at hb
      cases hb
      exact halive a ha hB
  · rw [updateAt_get_ne l i f j hj]
    exact ⟨rfl, fun a b ha hb hB => by
      rw [ha] at hb
      cases hb
      exact hB⟩

/-- One attack-loop iteration: instant damage only hits the alive target
chosen by `nearest_enemy`, and the cooldown reset leaves hp untouched. -/
theorem attackStep_deadPres (cat : Catalog) (dt : ℚ)
    (st : List (ℤ × Unit) × List Projectile) (i : ℕ) :
    deadPres st.1 (attackStep cat dt st i).1 := by
  unfold attackStep
  cases hg : st.1.get? i with
  | none => exact deadPres_refl st.1
  | some p =>
    obtain ⟨owner, ui⟩ := p
    dsimp only
    split
    · exact deadPres_refl st.1
    · split
      · exact deadPres_refl st.1
      · cases hne : nearest_enemy st.1 i with
        | none => exact deadPres_refl st.1
        | some t =>
          dsimp only
          cases hgt : st.1.get? t with
          | none => exact deadPres_refl st.1
          | some tp =>
            dsimp only
            split
            · split
              · dsimp only
                refine deadPres_updateAt st.1 i _ ?_ ?_
                · intro x
                  rfl
                · intro x hx hB
                  exact hB
              · dsimp only
                have h1 : deadPres st.1
                    (updateAt st.1 t (fun ou => (ou.1, dmgUnit ou.2 (ui.dps * dt)))) := by
                  refine deadPres_updateAt st.1 t _ ?_ ?_
                  · intro x
                    rfl
                  · intro x hx hB
                    obtain ⟨p2, hp2, hal2⟩ := nearest_enemy_alive st.1 i t hne
                    rw [hx] at hp2
                    cases hp2
                    exact hal2
                refine deadPres_trans h1 ?_
                refine deadPres_updateAt _ i _ ?_ ?_
                · intro x
                  rfl
                · intro x hx hB
                  exact hB
            · exact deadPres_refl st.1

theorem attackFold_deadPres (cat : Catalog) (dt : ℚ) :
    ∀ (idxs : List ℕ) (st : List (ℤ × Unit) × List Projectile),
    deadPres st.1 ((idxs.foldl (attackStep cat dt) st).1)
  | [], st => deadPres_refl st.1
  | i :: rest, st =>
    deadPres_trans (attackStep_deadPres cat dt st i)
      (attackFold_deadPres cat dt rest _)

theorem attackPhase_deadPres (cat : Catalog) (dt : ℚ) (units : List (ℤ × Unit))
    (projs : List Projectile) : deadPres units (attackPhase cat dt units projs).1 := by
  unfold attackPhase
  exact attackFold_deadPres cat dt _ (units, projs)

/-- Composed over the four stages of `BattleEngine.step`: a unit alive
after the tick was alive before it. -/
theorem step_deadPres (cat : Catalog) (e : BattleEngine) (dt : ℚ) :
    deadPres e.units (BattleEngine.step cat e dt).units := by
  unfold BattleEngine.step
  dsimp only
  exact deadPres_trans (projPass_deadPres dt e.units e.projectiles)
    (deadPres_trans (moveStage_deadPres cat dt _)
      (deadPres_trans (attackPhase_deadPres cat dt _ _)
        (projPass_deadPres dt _ _)))

/-- Claim C8 (confirmed): for every roster and every `dt ≥ 0`, each side's
alive count after `BattleEngine.step(dt)` is at most its alive count
before the call: `alive_counts` never increases for either side across
ticks. -/
theorem claim_C8_alive_counts_monotone (cat : Catalog) (e : BattleEngine) (dt : ℚ)
    (hdt : 0 ≤ dt) :
    ((BattleEngine.step cat e dt).alive_counts).1 ≤ (e.alive_counts).1 ∧
    ((BattleEngine.step cat e dt).alive_counts).2 ≤ (e.alive_counts).2 := by
  unfold BattleEngine.alive_counts
  exact ⟨deadPres_countP 0 _ _ (step_deadPres cat e dt),
         deadPres_countP 1 _ _ (step_deadPres cat e dt)⟩

/-- Concrete two-unit engine for exercising the alive-count bound. -/
def exEngineC8 : BattleEngine :=
  { units := [(0, { card_id := 0, star := 1, pos := (0, 0), hp := 5, dps := 1, cooldown := 0
                    move_target := none, reserved := none }),
              (1, { card_id := 1, star := 1, pos := (7, 4), hp := 5, dps := 1, cooldown := 0
                    move_target := none, reserved := none })]
    projectiles := [] }

theorem claim_C8_witness :
    (0 : ℚ) ≤ 1 ∧
    (((BattleEngine.step none exEngineC8 1).alive_counts).1 ≤ (exEngineC8.alive_counts).1 ∧
     ((BattleEngine.step none exEngineC8 1).alive_counts).2 ≤ (exEngineC8.alive_counts).2) :=
  ⟨by decide, claim_C8_alive_counts_monotone none exEngineC8 1 (by decide)⟩

end MergeTactics
